import Mathlib

/-!
Verification of the go-bmf AngelCode bitmap-font codec.

This development shallowly embeds the Go sources of the repository:
the canonical `Font` data model, the `internal/binary` byte reader and
writer over an in-memory byte source (the semantics of `bytes.Reader`:
a read request with some but not enough bytes left performs a short
read without error; a read at end of data fails with `io.EOF`), the
binary-format parser (`ParseBinary` and its per-block sub-parsers), the
binary serializer (`SerializeBinary`), the charset lookup table, the
text-format tokenizer and parsers, and the format auto-detector.

Byte strings (Go `string` values, which are raw byte sequences) are
modelled as `List Nat` with each element intended below 256; Go `int`
values are modelled as `Int`; machine-width conversions (`uint8(x)`,
`int16(x)`, ...) are modelled with explicit `% 2^w` arithmetic.
-/

namespace GoBmf

/-- Padding for each character in pixels (`Padding` in bmf.go). -/
structure Padding where
  up : Int
  right : Int
  down : Int
  left : Int
  deriving DecidableEq, Repr

/-- Spacing for each character in pixels (`Spacing` in bmf.go). -/
structure Spacing where
  horizontal : Int
  vertical : Int
  deriving DecidableEq, Repr

/-- Font generation metadata (`Info` in bmf.go).  String fields are raw
byte sequences; flags are booleans. -/
structure Info where
  face : List Nat
  size : Int
  bold : Bool
  italic : Bool
  charset : List Nat
  unicode : Bool
  stretchH : Int
  smooth : Bool
  aa : Int
  padding : Padding
  spacing : Spacing
  outline : Int
  deriving DecidableEq, Repr

/-- Information common to all characters (`Common` in bmf.go).  The four
channel fields hold raw `ChannelData` ordinals as plain integers. -/
structure Common where
  lineHeight : Int
  base : Int
  scaleW : Int
  scaleH : Int
  pages : Int
  packed : Bool
  alphaChannel : Int
  redChannel : Int
  greenChannel : Int
  blueChannel : Int
  deriving DecidableEq, Repr

/-- One glyph page (`Page` in bmf.go). -/
structure Page where
  id : Int
  file : List Nat
  deriving DecidableEq, Repr

/-- One character record (`Char` in bmf.go).  `id` is a Go `rune`
(signed 32-bit); `channel` holds the raw `Channel` bitmask. -/
structure Char where
  id : Int
  x : Int
  y : Int
  width : Int
  height : Int
  xoffset : Int
  yoffset : Int
  xadvance : Int
  page : Int
  channel : Int
  deriving DecidableEq, Repr

/-- One kerning pair (`Kerning` in bmf.go). -/
structure Kerning where
  first : Int
  second : Int
  amount : Int
  deriving DecidableEq, Repr

/-- The canonical font model (`Font` in bmf.go). -/
structure Font where
  info : Info
  common : Common
  pages : List Page
  chars : List Char
  kernings : List Kerning
  deriving DecidableEq, Repr

/-- The zero value `Font{}` that `ParseBinary`/`ParseText` start from. -/
def emptyFont : Font :=
  { info := { face := [], size := 0, bold := false, italic := false, charset := [],
              unicode := false, stretchH := 0, smooth := false, aa := 0,
              padding := ⟨0, 0, 0, 0⟩, spacing := ⟨0, 0⟩, outline := 0 },
    common := { lineHeight := 0, base := 0, scaleW := 0, scaleH := 0, pages := 0,
                packed := false, alphaChannel := 0, redChannel := 0,
                greenChannel := 0, blueChannel := 0 },
    pages := [], chars := [], kernings := [] }

/-- Go `uint8(i)` conversion: two's-complement truncation to 8 bits. -/
def toU8 (i : Int) : Nat := (i % 256).toNat

/-- Go `uint16(i)` / `int16(i)` conversion viewed as the 16 raw bits. -/
def toU16 (i : Int) : Nat := (i % 65536).toNat

/-- Go `uint32(i)` / `int32(i)` conversion viewed as the 32 raw bits. -/
def toU32 (i : Int) : Nat := (i % 4294967296).toNat

/-- Reinterpret 16 raw bits as a signed 16-bit value (Go `int16(u)`). -/
def toSigned16 (u : Nat) : Int := if u < 32768 then (u : Int) else (u : Int) - 65536

/-- Reinterpret 32 raw bits as a signed 32-bit value (Go `int32(u)`). -/
def toSigned32 (u : Nat) : Int :=
  if u < 2147483648 then (u : Int) else (u : Int) - 4294967296

/-- Little-endian bytes of a 16-bit value (`binary.LittleEndian.PutUint16`). -/
def u16le (v : Nat) : List Nat := [v % 256, v / 256 % 256]

/-- Little-endian bytes of a 32-bit value (`binary.LittleEndian.PutUint32`). -/
def u32le (v : Nat) : List Nat :=
  [v % 256, v / 256 % 256, v / 65536 % 256, v / 16777216 % 256]

/-- `binary.LittleEndian.Uint16` of the first two buffer bytes. -/
def leU16 (l : List Nat) : Nat := l.getD 0 0 + 256 * l.getD 1 0

/-- `binary.LittleEndian.Uint32` of the first four buffer bytes. -/
def leU32 (l : List Nat) : Nat :=
  l.getD 0 0 + 256 * l.getD 1 0 + 65536 * l.getD 2 0 + 16777216 * l.getD 3 0

/-- The conversion applied by the sources when a 0/1 integer is turned into
a boolean flag (`itob` / the `Bool` adapter): 1 maps to true. -/
def bOfInt (i : Int) : Bool := i == 1

/-- The 0/1 byte of a boolean flag (the `Byte()` method of the boolean
adapter): true maps to 1. -/
def bByte (b : Bool) : Nat := if b then 1 else 0

/-! ## The `internal/binary` reader over an in-memory source

`binary.Reader` keeps a scratch buffer that is reallocated only when the
requested size is at least its capacity (`cap(br.buf) <= n`); otherwise
the buffer is re-sliced and bytes beyond a short read retain stale
content from earlier reads.  `Read` issues a single `Src.Read` call with
`bytes.Reader` semantics: at end of data it fails with `io.EOF`, and
otherwise it copies `min n remaining` bytes without error. -/

/-- Errors a `binary.Reader` can record in its `Err` field. -/
inductive RErr where
  | eof
  | notNullTerminated
  deriving DecidableEq, Repr

/-- State of a `binary.Reader` whose `Src` is an in-memory byte sequence:
the remaining source bytes, the running `Index`, the underlying scratch
array (`arr`, whose length models the slice capacity), the current
buffer slice length, and the recorded error. -/
structure Reader where
  rem : List Nat
  idx : Nat
  arr : List Nat
  bufLen : Nat
  err : Option RErr
  deriving DecidableEq, Repr

/-- The currently visible buffer slice `br.buf`. -/
def Reader.buf (r : Reader) : List Nat := r.arr.take r.bufLen

/-- `binary.Reader.Read`: resize/reallocate the buffer, then issue one
source read.  Returns the updated reader and the `ok` flag. -/
def Reader.read (r : Reader) (n : Nat) : Reader × Bool :=
  if r.err.isSome then (r, false)
  else
    let arr1 := if r.arr.length ≤ n then List.replicate n 0 else r.arr
    if r.rem.isEmpty then
      ({ r with arr := arr1, bufLen := n, err := some .eof }, false)
    else
      let k := min n r.rem.length
      ({ rem := r.rem.drop k, idx := r.idx + k,
         arr := r.rem.take k ++ arr1.drop k, bufLen := n, err := none }, true)

/-- `binary.Reader.ReadUInt8`. -/
def readU8 (r : Reader) : Option (Nat × Reader) :=
  let (r', ok) := r.read 1
  if ok then some (r'.buf.getD 0 0, r') else none

/-- `binary.Reader.ReadBits`. -/
def readBits (r : Reader) : Option (Nat × Reader) := readU8 r

/-- `binary.Reader.ReadUInt16`. -/
def readU16 (r : Reader) : Option (Nat × Reader) :=
  let (r', ok) := r.read 2
  if ok then some (leU16 r'.buf, r') else none

/-- `binary.Reader.ReadInt16`. -/
def readI16 (r : Reader) : Option (Int × Reader) :=
  let (r', ok) := r.read 2
  if ok then some (toSigned16 (leU16 r'.buf), r') else none

/-- `binary.Reader.ReadUInt32`. -/
def readU32 (r : Reader) : Option (Nat × Reader) :=
  let (r', ok) := r.read 4
  if ok then some (leU32 r'.buf, r') else none

/-- `binary.Reader.ReadRune`: four little-endian bytes as a signed
32-bit code point. -/
def readRune (r : Reader) : Option (Int × Reader) :=
  let (r', ok) := r.read 4
  if ok then some (toSigned32 (leU32 r'.buf), r') else none

/-- `binary.Reader.ReadString`: exactly `c` buffer bytes as a byte string. -/
def readStringN (r : Reader) (c : Nat) : Option (List Nat × Reader) :=
  let (r', ok) := r.read c
  if ok then some (r'.buf, r') else none

/-- Loop body of `binary.Reader.ReadNullString`: at most `m` more
accepted bytes; reaching the bound without a terminator fails. -/
def readNullStringAux : Nat → Reader → List Nat → Option (List Nat × Reader)
  | 0, _, _ => none
  | m + 1, r, acc =>
    match readU8 r with
    | none => none
    | some (b, r') =>
      if b = 0 then some (acc.reverse, r')
      else readNullStringAux m r' (b :: acc)

/-- `binary.Reader.ReadNullString` with bound `max`. -/
def readNullString (r : Reader) (max : Nat) : Option (List Nat × Reader) :=
  readNullStringAux max r []

/-! ## Charset lookup table -/

/-- `CharsetTable`, in source order.  Keys are the legacy numeric
charset ids, values the ASCII names. -/
def charsetTable : List (Nat × List Nat) :=
  [ (186, [66, 97, 108, 116, 105, 99]),                      -- Baltic
    (77, [77, 97, 99]),                                      -- Mac
    (204, [82, 117, 115, 115, 105, 97, 110]),                -- Russian
    (238, [69, 97, 115, 116, 69, 117, 114, 111, 112, 101]),  -- EastEurope
    (222, [84, 104, 97, 105]),                               -- Thai
    (163, [86, 105, 101, 116, 110, 97, 109, 101, 115, 101]), -- Vietnamese
    (162, [84, 117, 114, 107, 105, 115, 104]),               -- Turkish
    (161, [71, 114, 101, 101, 107]),                         -- Greek
    (178, [65, 114, 97, 98, 105, 99]),                       -- Arabic
    (177, [72, 101, 98, 114, 101, 119]),                     -- Hebrew
    (130, [74, 111, 104, 97, 98]),                           -- Johab
    (255, [79, 101, 109]),                                   -- Oem
    (136, [67, 104, 105, 110, 101, 115, 101, 66, 105, 103, 53]), -- ChineseBig5
    (134, [71, 66, 50, 51, 49, 50]),                         -- GB2312
    (129, [72, 97, 110, 103, 117, 108]),                     -- Hangul
    (128, [83, 104, 105, 102, 116, 74, 73, 83]),             -- ShiftJIS
    (2, [83, 121, 109, 98, 111, 108]),                       -- Symbol
    (1, [68, 101, 102, 97, 117, 108, 116]),                  -- Default
    (0, [65, 110, 115, 105]) ]                               -- Ansi

/-- Helper for `natDecBytes`: most-significant-first digit bytes of a
positive number, with fuel. -/
def natDecAux : Nat → Nat → List Nat
  | 0, _ => []
  | fuel + 1, n => if n = 0 then [] else natDecAux fuel (n / 10) ++ [n % 10 + 48]

/-- Decimal digit bytes of a natural number (`fmt.Sprintf` with a
decimal verb on a non-negative value). -/
def natDecBytes (n : Nat) : List Nat :=
  if n = 0 then [48] else natDecAux n n

/-- `LookupCharset`: the name of a charset id, or its decimal string
when the id is unknown; the flag reports whether it was found. -/
def lookupCharset (charsetEnum : Nat) : List Nat × Bool :=
  match charsetTable.find? (fun p => p.1 == charsetEnum) with
  | some p => (p.2, true)
  | none => (natDecBytes charsetEnum, false)

/-- ASCII lowercasing of a byte string (`strings.ToLower` restricted to
the ASCII byte range, which covers every charset name and decimal
literal). -/
def lowerAscii (s : List Nat) : List Nat :=
  s.map (fun b => if 65 ≤ b ∧ b ≤ 90 then b + 32 else b)

/-- Is `b` an ASCII decimal digit byte? -/
def isDigit (b : Nat) : Bool := 48 ≤ b ∧ b ≤ 57

/-- Numeric value of a digit-byte string (no sign handling). -/
def digitsVal (s : List Nat) : Nat :=
  s.foldl (fun acc b => acc * 10 + (b - 48)) 0

/-- The digit bytes of a candidate integer literal: the string with one
leading sign byte stripped. -/
def goAtoiDigits (s : List Nat) : List Nat :=
  if s.head? = some 43 ∨ s.head? = some 45 then s.tail else s

/-- `strconv.Atoi`: an optional single sign followed by at least one
decimal digit, failing on any other byte and on 64-bit overflow. -/
def goAtoi (s : List Nat) : Option Int :=
  if goAtoiDigits s = [] then none
  else if (goAtoiDigits s).all isDigit then
    if s.head? = some 45 then
      if digitsVal (goAtoiDigits s) ≤ 9223372036854775808 then
        some (-(digitsVal (goAtoiDigits s) : Int))
      else none
    else
      if digitsVal (goAtoiDigits s) ≤ 9223372036854775807 then
        some ((digitsVal (goAtoiDigits s) : Int))
      else none
  else none

/-- `LookupCharsetValue`: case-insensitive name lookup in the charset
table, falling back to parsing a decimal literal. -/
def lookupCharsetValue (charset : List Nat) : Int × Bool :=
  match charsetTable.find? (fun p => lowerAscii p.2 == lowerAscii charset) with
  | some p => ((p.1 : Int), true)
  | none =>
    match goAtoi (lowerAscii charset) with
    | some v => (v, true)
    | none => (0, false)

/-! ## Binary serializer -/

/-- The charset id byte emitted by `serializeInfoBlockBinary`:
`uint8(charSet)` when `LookupCharsetValue` resolves the name, else 0. -/
def charsetByteOf (charset : List Nat) : Nat :=
  match lookupCharsetValue charset with
  | (v, true) => toU8 v
  | (_, false) => 0

/-- The info-block flags byte: smooth, unicode, italic, bold in bits
7, 6, 5 and 4. -/
def infoFlagsByte (i : Info) : Nat :=
  128 * bByte i.smooth + 64 * bByte i.unicode + 32 * bByte i.italic + 16 * bByte i.bold

/-- `serializeInfoBlockBinary`: block type 1, a 4-byte length
`14 + len(face) + 1`, the fixed fields, and the null-terminated face. -/
def serializeInfoBlockBinary (i : Info) : List Nat :=
  [1] ++ u32le (toU32 (14 + (i.face.length : Int) + 1))
      ++ u16le (toU16 i.size)
      ++ [infoFlagsByte i]
      ++ [charsetByteOf i.charset]
      ++ u16le (toU16 i.stretchH)
      ++ [toU8 i.aa,
          toU8 i.padding.up, toU8 i.padding.right, toU8 i.padding.down, toU8 i.padding.left,
          toU8 i.spacing.horizontal, toU8 i.spacing.vertical,
          toU8 i.outline]
      ++ i.face ++ [0]

/-- `serializeCommonBlockBinary`: block type 2 with a fixed 15-byte body. -/
def serializeCommonBlockBinary (c : Common) : List Nat :=
  [2] ++ u32le 15
      ++ u16le (toU16 c.lineHeight)
      ++ u16le (toU16 c.base)
      ++ u16le (toU16 c.scaleW)
      ++ u16le (toU16 c.scaleH)
      ++ u16le (toU16 c.pages)
      ++ [bByte c.packed]
      ++ [toU8 c.alphaChannel, toU8 c.redChannel, toU8 c.greenChannel, toU8 c.blueChannel]

/-- Right-pad a byte string with spaces to width `w`
(`fmt.Sprintf` with a left-justified width verb). -/
def padRight (s : List Nat) (w : Nat) : List Nat :=
  s ++ List.replicate (w - s.length) 32

/-- The common page-name width: the longest page file name. -/
def maxNameLen (pages : List Page) : Nat :=
  pages.foldl (fun m p => max m p.file.length) 0

/-- `serializePagesBlockBinary`: block type 3; every page name is
space-padded to the longest name's length and null-terminated. -/
def serializePagesBlockBinary (pages : List Page) : List Nat :=
  let nameLen := maxNameLen pages
  [3] ++ u32le (toU32 (((nameLen : Int) + 1) * (pages.length : Int)))
      ++ pages.flatMap (fun p => padRight p.file nameLen ++ [0])

/-- The 20 bytes of one character record. -/
def charBytes (c : Char) : List Nat :=
  u32le (toU32 c.id)
    ++ u16le (toU16 c.x) ++ u16le (toU16 c.y)
    ++ u16le (toU16 c.width) ++ u16le (toU16 c.height)
    ++ u16le (toU16 c.xoffset) ++ u16le (toU16 c.yoffset)
    ++ u16le (toU16 c.xadvance)
    ++ [toU8 c.page, toU8 c.channel]

/-- `serializeCharsBlockBinary`: block type 4 with 20 bytes per record. -/
def serializeCharsBlockBinary (chars : List Char) : List Nat :=
  [4] ++ u32le (toU32 (20 * (chars.length : Int))) ++ chars.flatMap charBytes

/-- The 10 bytes of one kerning record. -/
def kernBytes (k : Kerning) : List Nat :=
  u32le (toU32 k.first) ++ u32le (toU32 k.second) ++ u16le (toU16 k.amount)

/-- `serializeKerningsBlockBinary`: block type 5 with 10 bytes per record. -/
def serializeKerningsBlockBinary (kernings : List Kerning) : List Nat :=
  [5] ++ u32le (toU32 (10 * (kernings.length : Int))) ++ kernings.flatMap kernBytes

/-- `SerializeBinary`: the header `BMF` + version byte 3 followed by the
five blocks in fixed order.  The in-memory destination never fails, so
the writer is modelled as pure byte accumulation. -/
def SerializeBinary (f : Font) : List Nat :=
  [66, 77, 70, 3]
    ++ serializeInfoBlockBinary f.info
    ++ serializeCommonBlockBinary f.common
    ++ serializePagesBlockBinary f.pages
    ++ serializeCharsBlockBinary f.chars
    ++ serializeKerningsBlockBinary f.kernings

/-! ## Binary parser -/

/-- Structured parse-error causes.  `msg` keeps the Go format string and
its numeric arguments; `atRecord` is the per-record wrapping applied in
the chars and kerning-pairs blocks with the 1-based failing index and
the total expected record count; `eof` is `io.EOF`. -/
inductive BErr where
  | eof
  | msg (s : String) (args : List Int)
  | atRecord (idx total : Nat) (e : BErr)
  deriving DecidableEq, Repr

/-- `BinaryParseError`: byte offset, block type (0 is the header block),
declared block length, and the underlying cause. -/
structure BinaryParseError where
  offset : Nat
  block : Nat
  blockLength : Nat
  err : BErr
  deriving DecidableEq, Repr

/-- `parseHeaderBinary`: three literal bytes `BMF` then the version
byte 3; failures are wrapped with the header block identity. -/
def parseHeaderBinary (frd : Reader) : Except BinaryParseError Reader :=
  match readStringN frd 3 with
  | none => .error ⟨frd.idx, 0, 4, .msg "expected three bytes for the file identifier" []⟩
  | some (start, r1) =>
    if start ≠ [66, 77, 70] then .error ⟨r1.idx, 0, 4, .msg "expected BMF" []⟩
    else
      match readU8 r1 with
      | none => .error ⟨r1.idx, 0, 4, .msg "expected one byte for the format version" []⟩
      | some (version, r2) =>
        if version ≠ 3 then .error ⟨r2.idx, 0, 4, .msg "expected version to be one 3" []⟩
        else .ok r2

/-- `parseInfoBinary`.  Sub-parsers return the cause together with the
block reader at failure time (whose `Index` feeds the error offset). -/
def parseInfoBinary (brd : Reader) (blockLength : Nat) :
    Except (BErr × Reader) (Info × Reader) :=
  if blockLength < 15 then
    .error (.msg "expected at least 15 bytes for info block but was %d" [blockLength], brd)
  else
  match readI16 brd with
  | none => .error (.msg "expected two bytes for fontSize" [], brd)
  | some (size, r1) =>
  match readBits r1 with
  | none => .error (.msg "expected one byte for bitField" [], r1)
  | some (flags, r2) =>
  let smooth := bOfInt ((flags / 128) % 2 : Nat)
  let unicode := bOfInt ((flags / 64) % 2 : Nat)
  let italic := bOfInt ((flags / 32) % 2 : Nat)
  let bold := bOfInt ((flags / 16) % 2 : Nat)
  match readU8 r2 with
  | none => .error (.msg "expected one byte for charSet" [], r2)
  | some (charSet, r3) =>
  let charset := if unicode then [] else (lookupCharset charSet).1
  match readU16 r3 with
  | none => .error (.msg "expected two bytes for stretchH" [], r3)
  | some (stretchH, r4) =>
  match readU8 r4 with
  | none => .error (.msg "expected one byte for aa" [], r4)
  | some (aa, r5) =>
  match readU8 r5 with
  | none => .error (.msg "expected one byte for paddingUp" [], r5)
  | some (pu, r6) =>
  match readU8 r6 with
  | none => .error (.msg "expected one byte for paddingRight" [], r6)
  | some (pr, r7) =>
  match readU8 r7 with
  | none => .error (.msg "expected one byte for paddingDown" [], r7)
  | some (pd, r8) =>
  match readU8 r8 with
  | none => .error (.msg "expected one byte for paddingLeft" [], r8)
  | some (pl, r9) =>
  match readU8 r9 with
  | none => .error (.msg "expected one byte for spacingHoriz" [], r9)
  | some (sh, r10) =>
  match readU8 r10 with
  | none => .error (.msg "expected one byte for spacingVert" [], r10)
  | some (sv, r11) =>
  match readU8 r11 with
  | none => .error (.msg "expected one byte for outline" [], r11)
  | some (outl, r12) =>
  let fontNameLen := blockLength - r12.idx
  match readStringN r12 fontNameLen with
  | none => .error (.msg "expected %d bytes for fontName" [(fontNameLen : Int)], r12)
  | some (fontName, r13) =>
    if fontName.getD (fontNameLen - 1) 0 ≠ 0 then
      .error (.msg "expected fontName to be null terminated" [], r13)
    else
      .ok ({ face := fontName.dropLast, size := size, bold := bold, italic := italic,
             charset := charset, unicode := unicode, stretchH := (stretchH : Int),
             smooth := smooth, aa := (aa : Int),
             padding := ⟨(pu : Int), (pr : Int), (pd : Int), (pl : Int)⟩,
             spacing := ⟨(sh : Int), (sv : Int)⟩, outline := (outl : Int) }, r13)

/-- `parseCommonBinary`. -/
def parseCommonBinary (brd : Reader) (blockLength : Nat) :
    Except (BErr × Reader) (Common × Reader) :=
  if blockLength ≠ 15 then
    .error (.msg "expected 15 bytes for common block but was %d" [(blockLength : Int)], brd)
  else
  match readU16 brd with
  | none => .error (.msg "expected two bytes for lineHeight" [], brd)
  | some (lineHeight, r1) =>
  match readU16 r1 with
  | none => .error (.msg "expected two bytes for base" [], r1)
  | some (base, r2) =>
  match readU16 r2 with
  | none => .error (.msg "expected two bytes for scaleW" [], r2)
  | some (scaleW, r3) =>
  match readU16 r3 with
  | none => .error (.msg "expected two bytes for scaleH" [], r3)
  | some (scaleH, r4) =>
  match readU16 r4 with
  | none => .error (.msg "expected two bytes for pages" [], r4)
  | some (pages, r5) =>
  match readBits r5 with
  | none => .error (.msg "expected one byte for bitField" [], r5)
  | some (flags, r6) =>
  let packed := bOfInt ((flags % 2 : Nat))
  match readU8 r6 with
  | none => .error (.msg "expected one byte for alphaChnl" [], r6)
  | some (alpha, r7) =>
  match readU8 r7 with
  | none => .error (.msg "expected one byte for redChnl" [], r7)
  | some (red, r8) =>
  match readU8 r8 with
  | none => .error (.msg "expected one byte for greenChnl" [], r8)
  | some (green, r9) =>
  match readU8 r9 with
  | none => .error (.msg "expected one byte for blueChnl" [], r9)
  | some (blue, r10) =>
    .ok ({ lineHeight := (lineHeight : Int), base := (base : Int),
           scaleW := (scaleW : Int), scaleH := (scaleH : Int), pages := (pages : Int),
           packed := packed, alphaChannel := (alpha : Int), redChannel := (red : Int),
           greenChannel := (green : Int), blueChannel := (blue : Int) }, r10)

/-- Remove leading and trailing space bytes (`strings.Trim` with a
space cutset). -/
def trimSpace (s : List Nat) : List Nat :=
  (((s.dropWhile (· = 32)).reverse.dropWhile (· = 32)).reverse)

/-- Loop of `parsePagesBinary` for records 1 and up: `fuel` counts the
remaining iterations of `for i := 1; i < blockLength/nameLen; i++`. -/
def pagesLoop (nameLen : Nat) : Nat → Nat → Reader → List Page →
    Except (BErr × Reader) (List Page × Reader)
  | 0, _, r, acc => .ok (acc, r)
  | fuel + 1, i, r, acc =>
    match readStringN r nameLen with
    | none => .error (.msg "expected %d bytes for pageName %d" [(nameLen : Int), (i : Int)], r)
    | some (name, r') =>
      pagesLoop nameLen fuel (i + 1) r' (acc ++ [⟨(i : Int), trimSpace name.dropLast⟩])

/-- `parsePagesBinary`: the first null-terminated name fixes the record
stride; the block length must be an exact multiple of it. -/
def parsePagesBinary (brd : Reader) (blockLength : Nat) :
    Except (BErr × Reader) (List Page × Reader) :=
  match readNullString brd blockLength with
  | none => .error (.msg "expected first null-terminated pageName" [], brd)
  | some (file0, r1) =>
    let nameLen := file0.length + 1
    let pages0 : List Page := [⟨0, trimSpace file0⟩]
    if blockLength % nameLen ≠ 0 then
      .error (.msg "expected multiple of %d bytes for pages block but was %d"
        [(nameLen : Int), (blockLength : Int)], r1)
    else
      pagesLoop nameLen (blockLength / nameLen - 1) 1 r1 pages0

/-- One 20-byte character record. -/
def parseCharOne (brd : Reader) : Except (BErr × Reader) (Char × Reader) :=
  match readRune brd with
  | none => .error (.msg "expected four bytes for id" [], brd)
  | some (id, r1) =>
  match readU16 r1 with
  | none => .error (.msg "expected two bytes for x" [], r1)
  | some (x, r2) =>
  match readU16 r2 with
  | none => .error (.msg "expected two bytes for y" [], r2)
  | some (y, r3) =>
  match readU16 r3 with
  | none => .error (.msg "expected two bytes for width" [], r3)
  | some (width, r4) =>
  match readU16 r4 with
  | none => .error (.msg "expected two bytes for height" [], r4)
  | some (height, r5) =>
  match readI16 r5 with
  | none => .error (.msg "expected two bytes for xoffset" [], r5)
  | some (xoffset, r6) =>
  match readI16 r6 with
  | none => .error (.msg "expected two bytes for yoffset" [], r6)
  | some (yoffset, r7) =>
  match readI16 r7 with
  | none => .error (.msg "expected two bytes for xadvance" [], r7)
  | some (xadvance, r8) =>
  match readU8 r8 with
  | none => .error (.msg "expected one byte for page" [], r8)
  | some (page, r9) =>
  match readU8 r9 with
  | none => .error (.msg "expected one byte for chnl" [], r9)
  | some (chnl, r10) =>
    .ok ({ id := id, x := (x : Int), y := (y : Int), width := (width : Int),
           height := (height : Int), xoffset := xoffset, yoffset := yoffset,
           xadvance := xadvance, page := (page : Int), channel := (chnl : Int) }, r10)

/-- Loop of `parseCharsBinary`: field failures at record `idx` (0-based)
are wrapped with the 1-based index and total count. -/
def charsLoop (total : Nat) : Nat → Nat → Reader → List Char →
    Except (BErr × Reader) (List Char × Reader)
  | 0, _, r, acc => .ok (acc, r)
  | fuel + 1, idx, r, acc =>
    match parseCharOne r with
    | .error (e, rE) => .error (.atRecord (idx + 1) total e, rE)
    | .ok (c, r') => charsLoop total fuel (idx + 1) r' (acc ++ [c])

/-- `parseCharsBinary`: the block length must be a multiple of 20. -/
def parseCharsBinary (brd : Reader) (blockLength : Nat) :
    Except (BErr × Reader) (List Char × Reader) :=
  if blockLength % 20 ≠ 0 then
    .error (.msg "expected a multiple of 20 bytes for charater block but was %d"
      [(blockLength : Int)], brd)
  else
    charsLoop (blockLength / 20) (blockLength / 20) 0 brd []

/-- One 10-byte kerning record. -/
def parseKernOne (brd : Reader) : Except (BErr × Reader) (Kerning × Reader) :=
  match readRune brd with
  | none => .error (.msg "expected four bytes for first" [], brd)
  | some (first, r1) =>
  match readRune r1 with
  | none => .error (.msg "expected four bytes for second" [], r1)
  | some (second, r2) =>
  match readI16 r2 with
  | none => .error (.msg "expected two bytes for amount" [], r2)
  | some (amount, r3) =>
    .ok ({ first := first, second := second, amount := amount }, r3)

/-- Loop of `parseKerningPairsBinary` with per-record error wrapping. -/
def kernsLoop (total : Nat) : Nat → Nat → Reader → List Kerning →
    Except (BErr × Reader) (List Kerning × Reader)
  | 0, _, r, acc => .ok (acc, r)
  | fuel + 1, idx, r, acc =>
    match parseKernOne r with
    | .error (e, rE) => .error (.atRecord (idx + 1) total e, rE)
    | .ok (k, r') => kernsLoop total fuel (idx + 1) r' (acc ++ [k])

/-- `parseKerningPairsBinary`: the block length must be a multiple of 10. -/
def parseKerningPairsBinary (brd : Reader) (blockLength : Nat) :
    Except (BErr × Reader) (List Kerning × Reader) :=
  if blockLength % 10 ≠ 0 then
    .error (.msg "expected a multiple of 10 bytes for kerning pairs block but was %d"
      [(blockLength : Int)], brd)
  else
    kernsLoop (blockLength / 10) (blockLength / 10) 0 brd []

/-- Outcome of one `parseBlockBinary` call: a successfully parsed block,
the wrapped `io.EOF` that `ParseBinary` treats as normal termination, or
a fatal error. -/
inductive BlockResult where
  | done (fnt : Font) (fr : Reader)
  | eofEnd (e : BinaryParseError)
  | fail (e : BinaryParseError)
  deriving DecidableEq, Repr

/-- `parseBlockBinary`: one block-type byte, a 4-byte little-endian
length, then the dedicated sub-parser on a fresh block reader sharing
the same source.  `fileReader.Index` advances by the block reader's
index, and sub-parser failures are wrapped with offset, block type and
declared length. -/
def parseBlockBinary (fnt : Font) (fr : Reader) : BlockResult :=
  let (fr1, ok1) := fr.read 1
  if !ok1 then
    if fr1.err = some RErr.eof then .eofEnd ⟨fr1.idx, 0, 0, .eof⟩
    else .fail ⟨fr1.idx, 0, 0, .msg "expected one byte for block type identifier" []⟩
  else
  let blockId := fr1.buf.getD 0 0
  if blockId < 1 ∨ 5 < blockId then
    .fail ⟨fr1.idx, 0, 0, .msg "expected block type to be one of 1,2,3,4,5 but was %d"
      [(blockId : Int)]⟩
  else
  match readU32 fr1 with
  | none => .fail ⟨fr1.idx, blockId, 0, .msg "expected four bytes for block length" []⟩
  | some (blockLen, fr2) =>
    let brd0 : Reader := ⟨fr2.rem, 0, [], 0, none⟩
    if blockId = 1 then
      match parseInfoBinary brd0 blockLen with
      | .error (e, rE) => .fail ⟨fr2.idx + rE.idx, 1, blockLen, e⟩
      | .ok (info, brd) =>
        .done { fnt with info := info } ⟨brd.rem, fr2.idx + brd.idx, fr2.arr, fr2.bufLen, fr2.err⟩
    else if blockId = 2 then
      match parseCommonBinary brd0 blockLen with
      | .error (e, rE) => .fail ⟨fr2.idx + rE.idx, 2, blockLen, e⟩
      | .ok (common, brd) =>
        .done { fnt with common := common } ⟨brd.rem, fr2.idx + brd.idx, fr2.arr, fr2.bufLen, fr2.err⟩
    else if blockId = 3 then
      match parsePagesBinary brd0 blockLen with
      | .error (e, rE) => .fail ⟨fr2.idx + rE.idx, 3, blockLen, e⟩
      | .ok (pages, brd) =>
        .done { fnt with pages := pages } ⟨brd.rem, fr2.idx + brd.idx, fr2.arr, fr2.bufLen, fr2.err⟩
    else if blockId = 4 then
      match parseCharsBinary brd0 blockLen with
      | .error (e, rE) => .fail ⟨fr2.idx + rE.idx, 4, blockLen, e⟩
      | .ok (chars, brd) =>
        .done { fnt with chars := chars } ⟨brd.rem, fr2.idx + brd.idx, fr2.arr, fr2.bufLen, fr2.err⟩
    else
      match parseKerningPairsBinary brd0 blockLen with
      | .error (e, rE) => .fail ⟨fr2.idx + rE.idx, 5, blockLen, e⟩
      | .ok (kernings, brd) =>
        .done { fnt with kernings := kernings } ⟨brd.rem, fr2.idx + brd.idx, fr2.arr, fr2.bufLen, fr2.err⟩

/-- The block loop of `ParseBinary`.  The fuel bound is a model
artifact: every successful `parseBlockBinary` consumes at least one
source byte, so `rem.length + 1` steps always suffice and the fuel-out
branch is unreachable at the call below. -/
def parseBlocks (fnt : Font) (fr : Reader) : Nat → Except BinaryParseError Font
  | 0 => .error ⟨fr.idx, 0, 0, .msg "out of fuel" []⟩
  | fuel + 1 =>
    match parseBlockBinary fnt fr with
    | .eofEnd _ => .ok fnt
    | .fail e => .error e
    | .done fnt' fr' => parseBlocks fnt' fr' fuel

/-- `ParseBinary` over an in-memory byte sequence. -/
def ParseBinary (data : List Nat) : Except BinaryParseError Font :=
  match parseHeaderBinary ⟨data, 0, [], 0, none⟩ with
  | .error e => .error e
  | .ok fr => parseBlocks emptyFont fr (fr.rem.length + 1)

/-! ## Reader stepping lemmas -/

theorem read_adv (r : Reader) (bs rest : List Nat) (n : Nat)
    (h0 : r.err = none) (hbs : bs.length = n) (h1 : 1 ≤ n) (hr : r.rem = bs ++ rest) :
    ∃ arr2, r.read n = (⟨rest, r.idx + n, arr2, n, none⟩, true) ∧ arr2.take n = bs := by
  have hne : r.rem.isEmpty = false := by
    rw [hr]
    cases bs with
    | nil => simp at hbs; omega
    | cons a t => simp
  have hk : min n r.rem.length = n := by
    rw [hr]; simp only [List.length_append, hbs]; omega
  refine ⟨bs ++ ((if r.arr.length ≤ n then List.replicate n 0 else r.arr).drop n), ?_, ?_⟩
  · unfold Reader.read
    rw [h0]
    simp only [Option.isSome_none, Bool.false_eq_true, if_false, hne, ite_false]
    rw [hk, hr]
    congr 2
    · exact List.drop_left' hbs
    · exact congrArg (· ++ _) (List.take_left' hbs)
  · rw [List.take_append_of_le_length (by omega), List.take_of_length_le (by omega)]

theorem read_eof (r : Reader) (n : Nat) (h0 : r.err = none) (hr : r.rem = []) :
    (r.read n).2 = false := by
  unfold Reader.read
  rw [h0, hr]
  simp

theorem readU8_adv (r : Reader) (b : Nat) (rest : List Nat)
    (h0 : r.err = none) (hr : r.rem = b :: rest) :
    ∃ r2 : Reader, readU8 r = some (b, r2) ∧
      r2.rem = rest ∧ r2.idx = r.idx + 1 ∧ r2.err = none := by
  obtain ⟨arr2, hread, htake⟩ := read_adv r [b] rest 1 h0 rfl (by omega) (by simpa using hr)
  refine ⟨⟨rest, r.idx + 1, arr2, 1, none⟩, ?_, rfl, rfl, rfl⟩
  unfold readU8
  rw [hread]
  simp [Reader.buf, htake]

theorem readU8_eof (r : Reader) (h0 : r.err = none) (hr : r.rem = []) :
    readU8 r = none := by
  unfold readU8
  have := read_eof r 1 h0 hr
  cases h : r.read 1 with
  | mk a b => rw [h] at this; simp at this; simp [this]

theorem leU16_u16le (v : Nat) (h : v < 65536) : leU16 (u16le v) = v := by
  simp only [leU16, u16le, List.getD]
  simp
  omega

theorem leU32_u32le (v : Nat) (h : v < 4294967296) : leU32 (u32le v) = v := by
  simp only [leU32, u32le, List.getD]
  simp
  omega

theorem readU16_adv (r : Reader) (v : Nat) (rest : List Nat)
    (h0 : r.err = none) (hv : v < 65536) (hr : r.rem = u16le v ++ rest) :
    ∃ r2 : Reader, readU16 r = some (v, r2) ∧
      r2.rem = rest ∧ r2.idx = r.idx + 2 ∧ r2.err = none := by
  obtain ⟨arr2, hread, htake⟩ := read_adv r (u16le v) rest 2 h0 rfl (by omega) hr
  refine ⟨⟨rest, r.idx + 2, arr2, 2, none⟩, ?_, rfl, rfl, rfl⟩
  unfold readU16
  rw [hread]
  simp [Reader.buf, htake, leU16_u16le v hv]

theorem toU16_lt (i : Int) : toU16 i < 65536 := by
  unfold toU16
  omega

theorem toU32_lt (i : Int) : toU32 i < 4294967296 := by
  unfold toU32
  omega

theorem toU8_lt (i : Int) : toU8 i < 256 := by
  unfold toU8
  omega

theorem toSigned16_toU16 (i : Int) (h1 : -32768 ≤ i) (h2 : i < 32768) :
    toSigned16 (toU16 i) = i := by
  unfold toSigned16 toU16
  omega

theorem toSigned32_toU32 (i : Int) (h1 : -2147483648 ≤ i) (h2 : i < 2147483648) :
    toSigned32 (toU32 i) = i := by
  unfold toSigned32 toU32
  omega

theorem readI16_adv (r : Reader) (i : Int) (rest : List Nat)
    (h0 : r.err = none) (h1 : -32768 ≤ i) (h2 : i < 32768)
    (hr : r.rem = u16le (toU16 i) ++ rest) :
    ∃ r2 : Reader, readI16 r = some (i, r2) ∧
      r2.rem = rest ∧ r2.idx = r.idx + 2 ∧ r2.err = none := by
  obtain ⟨arr2, hread, htake⟩ := read_adv r (u16le (toU16 i)) rest 2 h0 rfl (by omega) hr
  refine ⟨⟨rest, r.idx + 2, arr2, 2, none⟩, ?_, rfl, rfl, rfl⟩
  unfold readI16
  rw [hread]
  simp [Reader.buf, htake, leU16_u16le _ (toU16_lt i), toSigned16_toU16 i h1 h2]

theorem readU32_adv (r : Reader) (v : Nat) (rest : List Nat)
    (h0 : r.err = none) (hv : v < 4294967296) (hr : r.rem = u32le v ++ rest) :
    ∃ r2 : Reader, readU32 r = some (v, r2) ∧
      r2.rem = rest ∧ r2.idx = r.idx + 4 ∧ r2.err = none := by
  obtain ⟨arr2, hread, htake⟩ := read_adv r (u32le v) rest 4 h0 rfl (by omega) hr
  refine ⟨⟨rest, r.idx + 4, arr2, 4, none⟩, ?_, rfl, rfl, rfl⟩
  unfold readU32
  rw [hread]
  simp [Reader.buf, htake, leU32_u32le v hv]

theorem readRune_adv (r : Reader) (i : Int) (rest : List Nat)
    (h0 : r.err = none) (h1 : -2147483648 ≤ i) (h2 : i < 2147483648)
    (hr : r.rem = u32le (toU32 i) ++ rest) :
    ∃ r2 : Reader, readRune r = some (i, r2) ∧
      r2.rem = rest ∧ r2.idx = r.idx + 4 ∧ r2.err = none := by
  obtain ⟨arr2, hread, htake⟩ := read_adv r (u32le (toU32 i)) rest 4 h0 rfl (by omega) hr
  refine ⟨⟨rest, r.idx + 4, arr2, 4, none⟩, ?_, rfl, rfl, rfl⟩
  unfold readRune
  rw [hread]
  simp [Reader.buf, htake, leU32_u32le _ (toU32_lt i), toSigned32_toU32 i h1 h2]

theorem readStringN_adv (r : Reader) (bs rest : List Nat) (c : Nat)
    (h0 : r.err = none) (hbs : bs.length = c) (h1 : 1 ≤ c) (hr : r.rem = bs ++ rest) :
    ∃ r2 : Reader, readStringN r c = some (bs, r2) ∧
      r2.rem = rest ∧ r2.idx = r.idx + c ∧ r2.err = none := by
  obtain ⟨arr2, hread, htake⟩ := read_adv r bs rest c h0 hbs h1 hr
  refine ⟨⟨rest, r.idx + c, arr2, c, none⟩, ?_, rfl, rfl, rfl⟩
  unfold readStringN
  rw [hread]
  simp [Reader.buf, htake]

theorem readNullStringAux_adv (s : List Nat) :
    ∀ (m : Nat) (r : Reader) (acc rest : List Nat),
    r.err = none → (0 ∉ s) → s.length < m → r.rem = s ++ 0 :: rest →
    ∃ r2 : Reader, readNullStringAux m r acc = some (acc.reverse ++ s, r2) ∧
      r2.rem = rest ∧ r2.idx = r.idx + s.length + 1 ∧ r2.err = none := by
  induction s with
  | nil =>
    intro m r acc rest h0 _ hm hr
    obtain ⟨m', rfl⟩ : ∃ m', m = m' + 1 := ⟨m - 1, by omega⟩
    obtain ⟨r2, hu8, hrem, hidx, herr⟩ := readU8_adv r 0 rest h0 (by simpa using hr)
    refine ⟨r2, ?_, hrem, by simpa using hidx, herr⟩
    unfold readNullStringAux
    rw [hu8]
    simp
  | cons b t ih =>
    intro m r acc rest h0 hnz hm hr
    obtain ⟨m', rfl⟩ : ∃ m', m = m' + 1 := ⟨m - 1, by omega⟩
    have hb : b ≠ 0 := by intro h; exact hnz (by simp [h])
    obtain ⟨r1, hu8, hrem1, hidx1, herr1⟩ := readU8_adv r b (t ++ 0 :: rest) h0 (by simpa using hr)
    obtain ⟨r2, haux, hrem2, hidx2, herr2⟩ :=
      ih m' r1 (b :: acc) rest herr1 (fun h => hnz (by simp [h])) (by simpa using hm) hrem1
    refine ⟨r2, ?_, hrem2, ?_, herr2⟩
    · unfold readNullStringAux
      rw [hu8]
      simp only [hb, if_false]
      rw [haux]
      simp
    · rw [hidx2, hidx1]
      simp
      omega

theorem readNullString_adv (r : Reader) (s rest : List Nat) (max : Nat)
    (h0 : r.err = none) (hnz : 0 ∉ s) (hm : s.length < max) (hr : r.rem = s ++ 0 :: rest) :
    ∃ r2 : Reader, readNullString r max = some (s, r2) ∧
      r2.rem = rest ∧ r2.idx = r.idx + s.length + 1 ∧ r2.err = none := by
  obtain ⟨r2, h, hrem, hidx, herr⟩ := readNullStringAux_adv s max r [] rest h0 hnz hm hr
  exact ⟨r2, by simpa using h, hrem, hidx, herr⟩

theorem readU16_cons (r : Reader) (b0 b1 : Nat) (rest : List Nat)
    (h0 : r.err = none) (hr : r.rem = b0 :: b1 :: rest) :
    ∃ r2 : Reader, readU16 r = some (b0 + 256 * b1, r2) ∧
      r2.rem = rest ∧ r2.idx = r.idx + 2 ∧ r2.err = none := by
  obtain ⟨arr2, hread, htake⟩ := read_adv r [b0, b1] rest 2 h0 rfl (by omega) (by simpa using hr)
  refine ⟨⟨rest, r.idx + 2, arr2, 2, none⟩, ?_, rfl, rfl, rfl⟩
  unfold readU16
  rw [hread]
  simp [Reader.buf, htake, leU16]

theorem readI16_cons (r : Reader) (b0 b1 : Nat) (rest : List Nat)
    (h0 : r.err = none) (hr : r.rem = b0 :: b1 :: rest) :
    ∃ r2 : Reader, readI16 r = some (toSigned16 (b0 + 256 * b1), r2) ∧
      r2.rem = rest ∧ r2.idx = r.idx + 2 ∧ r2.err = none := by
  obtain ⟨arr2, hread, htake⟩ := read_adv r [b0, b1] rest 2 h0 rfl (by omega) (by simpa using hr)
  refine ⟨⟨rest, r.idx + 2, arr2, 2, none⟩, ?_, rfl, rfl, rfl⟩
  unfold readI16
  rw [hread]
  simp [Reader.buf, htake, leU16]

theorem readU32_cons (r : Reader) (b0 b1 b2 b3 : Nat) (rest : List Nat)
    (h0 : r.err = none) (hr : r.rem = b0 :: b1 :: b2 :: b3 :: rest) :
    ∃ r2 : Reader, readU32 r = some (b0 + 256 * b1 + 65536 * b2 + 16777216 * b3, r2) ∧
      r2.rem = rest ∧ r2.idx = r.idx + 4 ∧ r2.err = none := by
  obtain ⟨arr2, hread, htake⟩ :=
    read_adv r [b0, b1, b2, b3] rest 4 h0 rfl (by omega) (by simpa using hr)
  refine ⟨⟨rest, r.idx + 4, arr2, 4, none⟩, ?_, rfl, rfl, rfl⟩
  unfold readU32
  rw [hread]
  simp [Reader.buf, htake, leU32]

theorem readRune_cons (r : Reader) (b0 b1 b2 b3 : Nat) (rest : List Nat)
    (h0 : r.err = none) (hr : r.rem = b0 :: b1 :: b2 :: b3 :: rest) :
    ∃ r2 : Reader, readRune r = some (toSigned32 (b0 + 256 * b1 + 65536 * b2 + 16777216 * b3), r2) ∧
      r2.rem = rest ∧ r2.idx = r.idx + 4 ∧ r2.err = none := by
  obtain ⟨arr2, hread, htake⟩ :=
    read_adv r [b0, b1, b2, b3] rest 4 h0 rfl (by omega) (by simpa using hr)
  refine ⟨⟨rest, r.idx + 4, arr2, 4, none⟩, ?_, rfl, rfl, rfl⟩
  unfold readRune
  rw [hread]
  simp [Reader.buf, htake, leU32]

/-! ## Value recomposition lemmas -/

theorem u8_value_id (a : Int) (h1 : 0 ≤ a) (h2 : a < 256) : ((toU8 a : Nat) : Int) = a := by
  unfold toU8
  omega

theorem u16_value_id (s : Int) (h1 : 0 ≤ s) (h2 : s < 65536) :
    ((toU16 s % 256 + 256 * (toU16 s / 256 % 256) : Nat) : Int) = s := by
  unfold toU16
  omega

theorem i16_value_id (s : Int) (h1 : -32768 ≤ s) (h2 : s < 32768) :
    toSigned16 (toU16 s % 256 + 256 * (toU16 s / 256 % 256)) = s := by
  simp only [toSigned16, toU16]
  split <;> omega

theorem u32_value_id (s : Int) (h1 : 0 ≤ s) (h2 : s < 4294967296) :
    ((toU32 s % 256 + 256 * (toU32 s / 256 % 256) + 65536 * (toU32 s / 65536 % 256)
      + 16777216 * (toU32 s / 16777216 % 256) : Nat) : Int) = s := by
  unfold toU32
  omega

theorem rune_value_id (s : Int) (h1 : -2147483648 ≤ s) (h2 : s < 2147483648) :
    toSigned32 (toU32 s % 256 + 256 * (toU32 s / 256 % 256) + 65536 * (toU32 s / 65536 % 256)
      + 16777216 * (toU32 s / 16777216 % 256)) = s := by
  simp only [toSigned32, toU32]
  split <;> omega

theorem u32_nat_value_id (v : Nat) (h : v < 4294967296) :
    v % 256 + 256 * (v / 256 % 256) + 65536 * (v / 65536 % 256)
      + 16777216 * (v / 16777216 % 256) = v := by
  omega

/-- Bit extraction from the packed info flags byte recovers each flag. -/
theorem flags_bits (s u it b : Bool) :
    (bOfInt (((128 * bByte s + 64 * bByte u + 32 * bByte it + 16 * bByte b) / 128 % 2 : Nat) : Int) = s)
    ∧ (bOfInt (((128 * bByte s + 64 * bByte u + 32 * bByte it + 16 * bByte b) / 64 % 2 : Nat) : Int) = u)
    ∧ (bOfInt (((128 * bByte s + 64 * bByte u + 32 * bByte it + 16 * bByte b) / 32 % 2 : Nat) : Int) = it)
    ∧ (bOfInt (((128 * bByte s + 64 * bByte u + 32 * bByte it + 16 * bByte b) / 16 % 2 : Nat) : Int) = b) := by
  cases s <;> cases u <;> cases it <;> cases b <;> decide

/-- Bit 0 of the packed common flags byte recovers the packed flag. -/
theorem packed_bit (p : Bool) : bOfInt ((bByte p % 2 : Nat) : Int) = p := by
  cases p <;> decide

/-! ## Serialized block bodies -/

/-- Body of the serialized info block (after type byte and length). -/
def infoBody (i : Info) : List Nat :=
  u16le (toU16 i.size) ++ [infoFlagsByte i] ++ [charsetByteOf i.charset]
    ++ u16le (toU16 i.stretchH)
    ++ [toU8 i.aa, toU8 i.padding.up, toU8 i.padding.right, toU8 i.padding.down,
        toU8 i.padding.left, toU8 i.spacing.horizontal, toU8 i.spacing.vertical, toU8 i.outline]
    ++ i.face ++ [0]

/-- Body of the serialized common block. -/
def commonBody (c : Common) : List Nat :=
  u16le (toU16 c.lineHeight) ++ u16le (toU16 c.base) ++ u16le (toU16 c.scaleW)
    ++ u16le (toU16 c.scaleH) ++ u16le (toU16 c.pages)
    ++ [bByte c.packed]
    ++ [toU8 c.alphaChannel, toU8 c.redChannel, toU8 c.greenChannel, toU8 c.blueChannel]

theorem serializeInfoBlock_decomp (i : Info) :
    serializeInfoBlockBinary i
      = [1] ++ u32le (toU32 (14 + (i.face.length : Int) + 1)) ++ infoBody i := by
  simp [serializeInfoBlockBinary, infoBody]

theorem serializeCommonBlock_decomp (c : Common) :
    serializeCommonBlockBinary c = [2] ++ u32le 15 ++ commonBody c := by
  simp [serializeCommonBlockBinary, commonBody]

/-- Numeric range constraints under which the binary field encodings of
an `Info` are lossless (each field fits its wire width, including the
uint32 block-length field). -/
def InfoInRange (i : Info) : Prop :=
  -32768 ≤ i.size ∧ i.size < 32768 ∧
  0 ≤ i.stretchH ∧ i.stretchH < 65536 ∧
  0 ≤ i.aa ∧ i.aa < 256 ∧
  0 ≤ i.padding.up ∧ i.padding.up < 256 ∧
  0 ≤ i.padding.right ∧ i.padding.right < 256 ∧
  0 ≤ i.padding.down ∧ i.padding.down < 256 ∧
  0 ≤ i.padding.left ∧ i.padding.left < 256 ∧
  0 ≤ i.spacing.horizontal ∧ i.spacing.horizontal < 256 ∧
  0 ≤ i.spacing.vertical ∧ i.spacing.vertical < 256 ∧
  0 ≤ i.outline ∧ i.outline < 256 ∧
  i.face.length + 15 < 4294967296

/-- The charset string survives the serialize/parse cycle: blank when
the unicode flag is set, otherwise a fixed point of encoding to the
charset id byte and decoding back through the lookup table. -/
def CharsetStable (i : Info) : Prop :=
  (i.unicode = true → i.charset = []) ∧
  (i.unicode = false → (lookupCharset (charsetByteOf i.charset)).1 = i.charset)

theorem parseInfoBinary_ser (i : Info) (rest : List Nat) (brd : Reader)
    (h0 : brd.err = none) (hidx : brd.idx = 0)
    (hrem : brd.rem = infoBody i ++ rest)
    (hir : InfoInRange i) (hcs : CharsetStable i) :
    ∃ r2 : Reader, parseInfoBinary brd (15 + i.face.length) = .ok (i, r2) ∧
      r2.rem = rest ∧ r2.err = none := by
  obtain ⟨hs1, hs2, hh1, hh2, ha1, ha2, hp1, hp2, hp3, hp4, hp5, hp6, hp7, hp8,
    hq1, hq2, hq3, hq4, ho1, ho2, hbl⟩ := hir
  have hN : brd.rem = toU16 i.size % 256 :: toU16 i.size / 256 % 256 :: infoFlagsByte i ::
      charsetByteOf i.charset :: toU16 i.stretchH % 256 :: toU16 i.stretchH / 256 % 256 ::
      toU8 i.aa :: toU8 i.padding.up :: toU8 i.padding.right :: toU8 i.padding.down ::
      toU8 i.padding.left :: toU8 i.spacing.horizontal :: toU8 i.spacing.vertical ::
      toU8 i.outline :: (i.face ++ 0 :: rest) := by
    rw [hrem]; simp [infoBody, u16le]
  obtain ⟨r1, e1, rem1, idx1, err1⟩ := readI16_cons brd _ _ _ h0 hN
  obtain ⟨r2, e2, rem2, idx2, err2⟩ := readU8_adv r1 _ _ err1 rem1
  obtain ⟨r3, e3, rem3, idx3, err3⟩ := readU8_adv r2 _ _ err2 rem2
  obtain ⟨r4, e4, rem4, idx4, err4⟩ := readU16_cons r3 _ _ _ err3 rem3
  obtain ⟨r5, e5, rem5, idx5, err5⟩ := readU8_adv r4 _ _ err4 rem4
  obtain ⟨r6, e6, rem6, idx6, err6⟩ := readU8_adv r5 _ _ err5 rem5
  obtain ⟨r7, e7, rem7, idx7, err7⟩ := readU8_adv r6 _ _ err6 rem6
  obtain ⟨r8, e8, rem8, idx8, err8⟩ := readU8_adv r7 _ _ err7 rem7
  obtain ⟨r9, e9, rem9, idx9, err9⟩ := readU8_adv r8 _ _ err8 rem8
  obtain ⟨r10, e10, rem10, idx10, err10⟩ := readU8_adv r9 _ _ err9 rem9
  obtain ⟨r11, e11, rem11, idx11, err11⟩ := readU8_adv r10 _ _ err10 rem10
  obtain ⟨r12, e12, rem12, idx12, err12⟩ := readU8_adv r11 _ _ err11 rem11
  have hidx12 : r12.idx = 14 := by omega
  have hfn : 15 + i.face.length - r12.idx = i.face.length + 1 := by omega
  obtain ⟨r13, e13, rem13, idx13, err13⟩ :=
    readStringN_adv r12 (i.face ++ [0]) rest (i.face.length + 1) err12 (by simp) (by omega)
      (by rw [rem12]; simp)
  have hlast : (i.face ++ [0]).getD (i.face.length + 1 - 1) 0 = 0 := by
    simp
  have hflags := flags_bits i.smooth i.unicode i.italic i.bold
  refine ⟨r13, ?_, rem13, err13⟩
  unfold parseInfoBinary
  rw [if_neg (by omega : ¬ (15 + i.face.length < 15))]
  simp only [e1, readBits, e2, e3, e4, e5, e6, e7, e8, e9, e10, e11, e12, hfn, e13]
  simp only [i16_value_id i.size hs1 hs2]
  simp only [infoFlagsByte] at hflags ⊢
  simp only [hflags.1, hflags.2.1, hflags.2.2.1, hflags.2.2.2]
  have hcsq : (if i.unicode then ([] : List Nat) else (lookupCharset (charsetByteOf i.charset)).1)
      = i.charset := by
    cases hu : i.unicode
    · simp [hcs.2 hu]
    · simp [hcs.1 hu]
  simp only [hcsq, hlast]
  simp only [u16_value_id i.stretchH hh1 hh2]
  simp only [u8_value_id i.aa ha1 ha2, u8_value_id i.padding.up hp1 hp2,
    u8_value_id i.padding.right hp3 hp4, u8_value_id i.padding.down hp5 hp6,
    u8_value_id i.padding.left hp7 hp8, u8_value_id i.spacing.horizontal hq1 hq2,
    u8_value_id i.spacing.vertical hq3 hq4, u8_value_id i.outline ho1 ho2]
  simp

theorem parseCommonBinary_ser (c : Common) (rest : List Nat) (brd : Reader)
    (h0 : brd.err = none)
    (hrem : brd.rem = commonBody c ++ rest)
    (h1 : 0 ≤ c.lineHeight) (h2 : c.lineHeight < 65536)
    (h3 : 0 ≤ c.base) (h4 : c.base < 65536)
    (h5 : 0 ≤ c.scaleW) (h6 : c.scaleW < 65536)
    (h7 : 0 ≤ c.scaleH) (h8 : c.scaleH < 65536)
    (h9 : 0 ≤ c.pages) (h10 : c.pages < 65536)
    (h11 : 0 ≤ c.alphaChannel) (h12 : c.alphaChannel < 256)
    (h13 : 0 ≤ c.redChannel) (h14 : c.redChannel < 256)
    (h15 : 0 ≤ c.greenChannel) (h16 : c.greenChannel < 256)
    (h17 : 0 ≤ c.blueChannel) (h18 : c.blueChannel < 256) :
    ∃ r2 : Reader, parseCommonBinary brd 15 = .ok (c, r2) ∧
      r2.rem = rest ∧ r2.err = none := by
  have hN : brd.rem = toU16 c.lineHeight % 256 :: toU16 c.lineHeight / 256 % 256 ::
      toU16 c.base % 256 :: toU16 c.base / 256 % 256 ::
      toU16 c.scaleW % 256 :: toU16 c.scaleW / 256 % 256 ::
      toU16 c.scaleH % 256 :: toU16 c.scaleH / 256 % 256 ::
      toU16 c.pages % 256 :: toU16 c.pages / 256 % 256 ::
      bByte c.packed :: toU8 c.alphaChannel :: toU8 c.redChannel :: toU8 c.greenChannel ::
      toU8 c.blueChannel :: rest := by
    rw [hrem]; simp [commonBody, u16le]
  obtain ⟨r1, e1, rem1, idx1, err1⟩ := readU16_cons brd _ _ _ h0 hN
  obtain ⟨r2, e2, rem2, idx2, err2⟩ := readU16_cons r1 _ _ _ err1 rem1
  obtain ⟨r3, e3, rem3, idx3, err3⟩ := readU16_cons r2 _ _ _ err2 rem2
  obtain ⟨r4, e4, rem4, idx4, err4⟩ := readU16_cons r3 _ _ _ err3 rem3
  obtain ⟨r5, e5, rem5, idx5, err5⟩ := readU16_cons r4 _ _ _ err4 rem4
  obtain ⟨r6, e6, rem6, idx6, err6⟩ := readU8_adv r5 _ _ err5 rem5
  obtain ⟨r7, e7, rem7, idx7, err7⟩ := readU8_adv r6 _ _ err6 rem6
  obtain ⟨r8, e8, rem8, idx8, err8⟩ := readU8_adv r7 _ _ err7 rem7
  obtain ⟨r9, e9, rem9, idx9, err9⟩ := readU8_adv r8 _ _ err8 rem8
  obtain ⟨r10, e10, rem10, idx10, err10⟩ := readU8_adv r9 _ _ err9 rem9
  refine ⟨r10, ?_, rem10, err10⟩
  unfold parseCommonBinary
  rw [if_neg (by omega : ¬ (15 ≠ 15))]
  simp only [e1, e2, e3, e4, e5, readBits, e6, e7, e8, e9, e10]
  simp only [u16_value_id c.lineHeight h1 h2, u16_value_id c.base h3 h4,
    u16_value_id c.scaleW h5 h6, u16_value_id c.scaleH h7 h8, u16_value_id c.pages h9 h10]
  simp only [packed_bit c.packed]
  simp only [u8_value_id c.alphaChannel h11 h12, u8_value_id c.redChannel h13 h14,
    u8_value_id c.greenChannel h15 h16, u8_value_id c.blueChannel h17 h18]

/-! ## Page-name padding and trimming -/

/-- A byte string that carries no space padding of its own: it neither
starts nor ends with a space byte. -/
def NoPadSpaces (s : List Nat) : Prop := s.head? ≠ some 32 ∧ s.getLast? ≠ some 32

theorem dropWhile_rep32 (k : Nat) :
    (List.replicate k 32).dropWhile (fun b => decide (b = 32)) = [] := by
  induction k with
  | zero => rfl
  | succ n ih => simp [List.replicate_succ, ih]

theorem trim_pad (s : List Nat) (k : Nat) (h1 : s.head? ≠ some 32) (h2 : s.getLast? ≠ some 32) :
    trimSpace (s ++ List.replicate k 32) = s := by
  unfold trimSpace
  cases s with
  | nil =>
    simp [dropWhile_rep32]
  | cons a t =>
    have ha : a ≠ 32 := by intro h; exact h1 (by simp [h])
    have h3 : ((a :: t) ++ List.replicate k 32).dropWhile (fun b => decide (b = 32))
        = (a :: t) ++ List.replicate k 32 := by
      rw [List.cons_append, List.dropWhile_cons]
      simp [ha]
    rw [h3]
    rw [List.reverse_append, List.reverse_replicate]
    rw [List.dropWhile_append]
    simp only [dropWhile_rep32, List.isEmpty_nil, if_true]
    have hlast : ∀ l : List Nat, l.getLast? ≠ some 32 →
        l.reverse.dropWhile (fun b => decide (b = 32)) = l.reverse := by
      intro l hl
      cases hrev : l.reverse with
      | nil => simp
      | cons b u =>
        have hb : b ≠ 32 := by
          intro h
          apply hl
          have : l.getLast? = (l.reverse).head? := by
            rw [List.head?_reverse]
          rw [this, hrev, h]
          rfl
        rw [List.dropWhile_cons]
        simp [hb]
    rw [hlast (a :: t) h2, List.reverse_reverse]

theorem padRight_length (s : List Nat) (L : Nat) (h : s.length ≤ L) :
    (padRight s L).length = L := by
  simp [padRight]
  omega

theorem trim_padRight (s : List Nat) (L : Nat) (h1 : NoPadSpaces s) :
    trimSpace (padRight s L) = s :=
  trim_pad s (L - s.length) h1.1 h1.2

/-! ## Pages block round trip -/

/-- Body of the serialized pages block with common name width `L`. -/
def pagesBodyW (L : Nat) (pages : List Page) : List Nat :=
  pages.flatMap (fun p => padRight p.file L ++ [0])

theorem serializePagesBlock_decomp (pages : List Page) :
    serializePagesBlockBinary pages
      = [3] ++ u32le (toU32 (((maxNameLen pages : Int) + 1) * (pages.length : Int)))
          ++ pagesBodyW (maxNameLen pages) pages := by
  simp [serializePagesBlockBinary, pagesBodyW]

/-- Constraints on one page file name for a lossless pages block. -/
def PageFileOk (s : List Nat) : Prop := 0 ∉ s ∧ NoPadSpaces s

theorem pagesLoop_ser (L : Nat) (ps : List Page) :
    ∀ (i : Nat) (acc : List Page) (r : Reader) (rest : List Nat),
    r.err = none →
    (∀ p ∈ ps, p.file.length ≤ L ∧ PageFileOk p.file) →
    (∀ k (hk : k < ps.length), (ps.get ⟨k, hk⟩).id = ((i + k : Nat) : Int)) →
    r.rem = pagesBodyW L ps ++ rest →
    ∃ r2 : Reader, pagesLoop (L + 1) ps.length i r acc = .ok (acc ++ ps, r2) ∧
      r2.rem = rest ∧ r2.err = none := by
  induction ps with
  | nil =>
    intro i acc r rest h0 _ _ hrem
    refine ⟨r, ?_, ?_, h0⟩
    · simp [pagesLoop]
    · simpa [pagesBodyW] using hrem
  | cons p t ih =>
    intro i acc r rest h0 hok hid hrem
    obtain ⟨hlen, hnz, hnp⟩ :
        p.file.length ≤ L ∧ 0 ∉ p.file ∧ NoPadSpaces p.file := by
      have := hok p (by simp)
      exact ⟨this.1, this.2.1, this.2.2⟩
    obtain ⟨r1, e1, rem1, idx1, err1⟩ :=
      readStringN_adv r (padRight p.file L ++ [0]) (pagesBodyW L t ++ rest) (L + 1) h0
        (by simp [padRight_length p.file L hlen]) (by omega)
        (by rw [hrem]; simp [pagesBodyW])
    have hip : (⟨((i : Nat) : Int), trimSpace (padRight p.file L ++ [0]).dropLast⟩ : Page) = p := by
      have h1 : (padRight p.file L ++ [0]).dropLast = padRight p.file L := by
        simp
      rw [h1, trim_padRight p.file L hnp]
      have : p.id = ((i : Nat) : Int) := by simpa using hid 0 (by simp)
      rw [← this]
    obtain ⟨r2, e2, rem2, err2⟩ :=
      ih (i + 1) (acc ++ [p]) r1 rest err1
        (fun q hq => hok q (by simp [hq]))
        (fun k hk => by
          have := hid (k + 1) (by simpa using Nat.succ_lt_succ hk)
          simpa [Nat.add_assoc, Nat.add_comm 1 k] using this)
        rem1
    refine ⟨r2, ?_, rem2, err2⟩
    show pagesLoop (L + 1) (t.length + 1) i r acc = _
    unfold pagesLoop
    simp only [e1]
    rw [hip, e2]
    simp

theorem parsePagesBinary_ser (pages : List Page) (rest : List Nat) (brd : Reader)
    (h0 : brd.err = none)
    (hne : pages ≠ [])
    (hok : ∀ p ∈ pages, PageFileOk p.file)
    (hid : ∀ k (hk : k < pages.length), (pages.get ⟨k, hk⟩).id = (k : Int))
    (hrem : brd.rem = pagesBodyW (maxNameLen pages) pages ++ rest) :
    ∃ r2 : Reader, parsePagesBinary brd ((maxNameLen pages + 1) * pages.length)
        = .ok (pages, r2) ∧ r2.rem = rest ∧ r2.err = none := by
  obtain ⟨p0, t, rfl⟩ : ∃ p0 t, pages = p0 :: t := by
    cases pages with
    | nil => exact absurd rfl hne
    | cons a b => exact ⟨a, b, rfl⟩
  set L := maxNameLen (p0 :: t) with hL
  have hlen0 : p0.file.length ≤ L := by
    rw [hL]
    unfold maxNameLen
    have : ∀ (l : List Page) (m : Nat), m ≤ l.foldl (fun m p => max m p.file.length) m := by
      intro l
      induction l with
      | nil => intro m; simp
      | cons q u ihq =>
        intro m
        calc m ≤ max m q.file.length := le_max_left _ _
        _ ≤ u.foldl (fun m p => max m p.file.length) (max m q.file.length) := ihq _
    calc p0.file.length ≤ max 0 p0.file.length := by omega
    _ ≤ t.foldl (fun m p => max m p.file.length) (max 0 p0.file.length) := this t _
    _ = (p0 :: t).foldl (fun m p => max m p.file.length) 0 := by simp [List.foldl_cons]
  obtain ⟨hnz0, hnp0⟩ := hok p0 (by simp)
  have hbl : (L + 1) * (p0 :: t).length = (L + 1) * (t.length + 1) := by simp
  have hpad0len : (padRight p0.file L).length = L := padRight_length p0.file L hlen0
  obtain ⟨r1, e1, rem1, idx1, err1⟩ :=
    readNullString_adv brd (padRight p0.file L) (pagesBodyW L t ++ rest)
      ((L + 1) * (p0 :: t).length) h0
      (by
        intro hmem
        simp only [padRight] at hmem
        rcases List.mem_append.mp hmem with h | h
        · exact hnz0 h
        · have := List.eq_of_mem_replicate h
          exact absurd this (by decide))
      (by rw [hpad0len]; simp; nlinarith)
      (by rw [hrem]; simp [pagesBodyW, padRight])
  unfold parsePagesBinary
  rw [e1]
  simp only [hpad0len]
  have hdiv : (L + 1) * (p0 :: t).length % (L + 1) = 0 := by
    simp [Nat.mul_mod_right]
  have hquot : (L + 1) * (p0 :: t).length / (L + 1) = t.length + 1 := by
    rw [hbl, Nat.mul_div_cancel_left _ (by omega : 0 < L + 1)]
  rw [hdiv]
  simp only [ne_eq, not_true_eq_false, if_false, hquot]
  have hp0 : (⟨0, trimSpace (padRight p0.file L)⟩ : Page) = p0 := by
    rw [trim_padRight p0.file L hnp0]
    have h : p0.id = 0 := by simpa using hid 0 (by simp)
    rw [← h]
  obtain ⟨r2, e2, rem2, err2⟩ :=
    pagesLoop_ser L t 1 [⟨0, trimSpace (padRight p0.file L)⟩] r1 rest err1
      (fun q hq => by
        refine ⟨?_, (hok q (by simp [hq])).1, (hok q (by simp [hq])).2⟩
        rw [hL]
        unfold maxNameLen
        have step : ∀ (l : List Page) (m : Nat) (q : Page), q ∈ l →
            q.file.length ≤ l.foldl (fun m p => max m p.file.length) m := by
          intro l
          induction l with
          | nil => intro m q hq; simp at hq
          | cons a u ihq =>
            intro m q hq
            rcases List.mem_cons.mp hq with h | h
            · subst h
              calc q.file.length ≤ max m q.file.length := le_max_right _ _
              _ ≤ u.foldl (fun m p => max m p.file.length) (max m q.file.length) := by
                  have : ∀ (l : List Page) (m : Nat), m ≤ l.foldl (fun m p => max m p.file.length) m := by
                    intro l
                    induction l with
                    | nil => intro m; simp
                    | cons b w ihw =>
                      intro m
                      calc m ≤ max m b.file.length := le_max_left _ _
                      _ ≤ w.foldl (fun m p => max m p.file.length) (max m b.file.length) := ihw _
                  exact this u _
            · exact ihq _ q h
        exact step (p0 :: t) 0 q (by simp [hq]))
      (fun k hk => by
        have := hid (k + 1) (by simpa using Nat.succ_lt_succ hk)
        simpa [Nat.add_comm 1 k] using this)
      rem1
  refine ⟨r2, ?_, rem2, err2⟩
  simp only [Nat.add_sub_cancel]
  rw [e2, hp0]
  simp

/-! ## Chars and kerning-pairs round trip -/

/-- Numeric range constraints for a lossless character record. -/
def CharInRange (c : Char) : Prop :=
  -2147483648 ≤ c.id ∧ c.id < 2147483648 ∧
  0 ≤ c.x ∧ c.x < 65536 ∧
  0 ≤ c.y ∧ c.y < 65536 ∧
  0 ≤ c.width ∧ c.width < 65536 ∧
  0 ≤ c.height ∧ c.height < 65536 ∧
  -32768 ≤ c.xoffset ∧ c.xoffset < 32768 ∧
  -32768 ≤ c.yoffset ∧ c.yoffset < 32768 ∧
  -32768 ≤ c.xadvance ∧ c.xadvance < 32768 ∧
  0 ≤ c.page ∧ c.page < 256 ∧
  0 ≤ c.channel ∧ c.channel < 256

theorem parseCharOne_ser (c : Char) (rest : List Nat) (brd : Reader)
    (h0 : brd.err = none) (hrem : brd.rem = charBytes c ++ rest) (hr : CharInRange c) :
    ∃ r2 : Reader, parseCharOne brd = .ok (c, r2) ∧ r2.rem = rest ∧ r2.err = none := by
  obtain ⟨g1, g2, g3, g4, g5, g6, g7, g8, g9, g10, g11, g12, g13, g14, g15, g16,
    g17, g18, g19, g20⟩ := hr
  have hN : brd.rem = toU32 c.id % 256 :: toU32 c.id / 256 % 256 :: toU32 c.id / 65536 % 256 ::
      toU32 c.id / 16777216 % 256 ::
      toU16 c.x % 256 :: toU16 c.x / 256 % 256 ::
      toU16 c.y % 256 :: toU16 c.y / 256 % 256 ::
      toU16 c.width % 256 :: toU16 c.width / 256 % 256 ::
      toU16 c.height % 256 :: toU16 c.height / 256 % 256 ::
      toU16 c.xoffset % 256 :: toU16 c.xoffset / 256 % 256 ::
      toU16 c.yoffset % 256 :: toU16 c.yoffset / 256 % 256 ::
      toU16 c.xadvance % 256 :: toU16 c.xadvance / 256 % 256 ::
      toU8 c.page :: toU8 c.channel :: rest := by
    rw [hrem]; simp [charBytes, u16le, u32le]
  obtain ⟨r1, e1, rem1, idx1, err1⟩ := readRune_cons brd _ _ _ _ _ h0 hN
  obtain ⟨r2, e2, rem2, idx2, err2⟩ := readU16_cons r1 _ _ _ err1 rem1
  obtain ⟨r3, e3, rem3, idx3, err3⟩ := readU16_cons r2 _ _ _ err2 rem2
  obtain ⟨r4, e4, rem4, idx4, err4⟩ := readU16_cons r3 _ _ _ err3 rem3
  obtain ⟨r5, e5, rem5, idx5, err5⟩ := readU16_cons r4 _ _ _ err4 rem4
  obtain ⟨r6, e6, rem6, idx6, err6⟩ := readI16_cons r5 _ _ _ err5 rem5
  obtain ⟨r7, e7, rem7, idx7, err7⟩ := readI16_cons r6 _ _ _ err6 rem6
  obtain ⟨r8, e8, rem8, idx8, err8⟩ := readI16_cons r7 _ _ _ err7 rem7
  obtain ⟨r9, e9, rem9, idx9, err9⟩ := readU8_adv r8 _ _ err8 rem8
  obtain ⟨r10, e10, rem10, idx10, err10⟩ := readU8_adv r9 _ _ err9 rem9
  refine ⟨r10, ?_, rem10, err10⟩
  unfold parseCharOne
  simp only [e1, e2, e3, e4, e5, e6, e7, e8, e9, e10]
  simp only [rune_value_id c.id g1 g2]
  simp only [u16_value_id c.x g3 g4, u16_value_id c.y g5 g6,
    u16_value_id c.width g7 g8, u16_value_id c.height g9 g10]
  simp only [i16_value_id c.xoffset g11 g12, i16_value_id c.yoffset g13 g14,
    i16_value_id c.xadvance g15 g16]
  simp only [u8_value_id c.page g17 g18, u8_value_id c.channel g19 g20]

theorem charsLoop_ser (total : Nat) (cs : List Char) :
    ∀ (i : Nat) (acc : List Char) (r : Reader) (rest : List Nat),
    r.err = none →
    (∀ c ∈ cs, CharInRange c) →
    r.rem = cs.flatMap charBytes ++ rest →
    ∃ r2 : Reader, charsLoop total cs.length i r acc = .ok (acc ++ cs, r2) ∧
      r2.rem = rest ∧ r2.err = none := by
  induction cs with
  | nil =>
    intro i acc r rest h0 _ hrem
    exact ⟨r, by simp [charsLoop], by simpa using hrem, h0⟩
  | cons c t ih =>
    intro i acc r rest h0 hok hrem
    obtain ⟨r1, e1, rem1, err1⟩ :=
      parseCharOne_ser c (t.flatMap charBytes ++ rest) r h0
        (by rw [hrem]; simp) (hok c (by simp))
    obtain ⟨r2, e2, rem2, err2⟩ :=
      ih (i + 1) (acc ++ [c]) r1 rest err1 (fun q hq => hok q (by simp [hq])) rem1
    refine ⟨r2, ?_, rem2, err2⟩
    show charsLoop total (t.length + 1) i r acc = _
    unfold charsLoop
    simp only [e1]
    rw [e2]
    simp

theorem parseCharsBinary_ser (chars : List Char) (rest : List Nat) (brd : Reader)
    (h0 : brd.err = none)
    (hok : ∀ c ∈ chars, CharInRange c)
    (hrem : brd.rem = chars.flatMap charBytes ++ rest) :
    ∃ r2 : Reader, parseCharsBinary brd (20 * chars.length) = .ok (chars, r2) ∧
      r2.rem = rest ∧ r2.err = none := by
  have hquot : 20 * chars.length / 20 = chars.length := by omega
  obtain ⟨r2, e2, rem2, err2⟩ := charsLoop_ser chars.length chars 0 [] brd rest h0 hok hrem
  refine ⟨r2, ?_, rem2, err2⟩
  unfold parseCharsBinary
  rw [if_neg (by omega : ¬ (20 * chars.length % 20 ≠ 0))]
  rw [hquot, e2]
  simp

/-- Numeric range constraints for a lossless kerning record. -/
def KernInRange (k : Kerning) : Prop :=
  -2147483648 ≤ k.first ∧ k.first < 2147483648 ∧
  -2147483648 ≤ k.second ∧ k.second < 2147483648 ∧
  -32768 ≤ k.amount ∧ k.amount < 32768

theorem parseKernOne_ser (k : Kerning) (rest : List Nat) (brd : Reader)
    (h0 : brd.err = none) (hrem : brd.rem = kernBytes k ++ rest) (hr : KernInRange k) :
    ∃ r2 : Reader, parseKernOne brd = .ok (k, r2) ∧ r2.rem = rest ∧ r2.err = none := by
  obtain ⟨g1, g2, g3, g4, g5, g6⟩ := hr
  have hN : brd.rem = toU32 k.first % 256 :: toU32 k.first / 256 % 256 ::
      toU32 k.first / 65536 % 256 :: toU32 k.first / 16777216 % 256 ::
      toU32 k.second % 256 :: toU32 k.second / 256 % 256 ::
      toU32 k.second / 65536 % 256 :: toU32 k.second / 16777216 % 256 ::
      toU16 k.amount % 256 :: toU16 k.amount / 256 % 256 :: rest := by
    rw [hrem]; simp [kernBytes, u16le, u32le]
  obtain ⟨r1, e1, rem1, idx1, err1⟩ := readRune_cons brd _ _ _ _ _ h0 hN
  obtain ⟨r2, e2, rem2, idx2, err2⟩ := readRune_cons r1 _ _ _ _ _ err1 rem1
  obtain ⟨r3, e3, rem3, idx3, err3⟩ := readI16_cons r2 _ _ _ err2 rem2
  refine ⟨r3, ?_, rem3, err3⟩
  unfold parseKernOne
  simp only [e1, e2, e3]
  simp only [rune_value_id k.first g1 g2, rune_value_id k.second g3 g4,
    i16_value_id k.amount g5 g6]

theorem kernsLoop_ser (total : Nat) (ks : List Kerning) :
    ∀ (i : Nat) (acc : List Kerning) (r : Reader) (rest : List Nat),
    r.err = none →
    (∀ k ∈ ks, KernInRange k) →
    r.rem = ks.flatMap kernBytes ++ rest →
    ∃ r2 : Reader, kernsLoop total ks.length i r acc = .ok (acc ++ ks, r2) ∧
      r2.rem = rest ∧ r2.err = none := by
  induction ks with
  | nil =>
    intro i acc r rest h0 _ hrem
    exact ⟨r, by simp [kernsLoop], by simpa using hrem, h0⟩
  | cons k t ih =>
    intro i acc r rest h0 hok hrem
    obtain ⟨r1, e1, rem1, err1⟩ :=
      parseKernOne_ser k (t.flatMap kernBytes ++ rest) r h0
        (by rw [hrem]; simp) (hok k (by simp))
    obtain ⟨r2, e2, rem2, err2⟩ :=
      ih (i + 1) (acc ++ [k]) r1 rest err1 (fun q hq => hok q (by simp [hq])) rem1
    refine ⟨r2, ?_, rem2, err2⟩
    show kernsLoop total (t.length + 1) i r acc = _
    unfold kernsLoop
    simp only [e1]
    rw [e2]
    simp

theorem parseKerningPairsBinary_ser (ks : List Kerning) (rest : List Nat) (brd : Reader)
    (h0 : brd.err = none)
    (hok : ∀ k ∈ ks, KernInRange k)
    (hrem : brd.rem = ks.flatMap kernBytes ++ rest) :
    ∃ r2 : Reader, parseKerningPairsBinary brd (10 * ks.length) = .ok (ks, r2) ∧
      r2.rem = rest ∧ r2.err = none := by
  have hquot : 10 * ks.length / 10 = ks.length := by omega
  obtain ⟨r2, e2, rem2, err2⟩ := kernsLoop_ser ks.length ks 0 [] brd rest h0 hok hrem
  refine ⟨r2, ?_, rem2, err2⟩
  unfold parseKerningPairsBinary
  rw [if_neg (by omega : ¬ (10 * ks.length % 10 ≠ 0))]
  rw [hquot, e2]
  simp

/-! ## Block-level round trip -/

theorem toU32_ofNat (n : Nat) (h : n < 4294967296) : toU32 (n : Int) = n := by
  unfold toU32
  omega

theorem parseBlock_info (fnt : Font) (fr : Reader) (i : Info) (rest : List Nat)
    (h0 : fr.err = none)
    (hrem : fr.rem = serializeInfoBlockBinary i ++ rest)
    (hir : InfoInRange i) (hcs : CharsetStable i) :
    ∃ fr2 : Reader, parseBlockBinary fnt fr = .done { fnt with info := i } fr2 ∧
      fr2.rem = rest ∧ fr2.err = none := by
  have hlen : i.face.length + 15 < 4294967296 := hir.2.2.2.2.2.2.2.2.2.2.2.2.2.2.2.2.2.2.2.2
  have hrem' : fr.rem = 1 :: (u32le (toU32 (14 + (i.face.length : Int) + 1))
      ++ (infoBody i ++ rest)) := by
    rw [hrem, serializeInfoBlock_decomp]
    simp
  obtain ⟨arr2, hread, htake⟩ := read_adv fr [1] _ 1 h0 rfl (by omega) (by simpa using hrem')
  obtain ⟨fr2, e2, rem2, idx2, err2⟩ :=
    readU32_adv ⟨_, fr.idx + 1, arr2, 1, none⟩ (toU32 (14 + (i.face.length : Int) + 1))
      (infoBody i ++ rest) rfl (toU32_lt _) rfl
  have hbl : toU32 (14 + (i.face.length : Int) + 1) = 15 + i.face.length := by
    unfold toU32
    omega
  obtain ⟨r3, e3, rem3, err3⟩ :=
    parseInfoBinary_ser i rest ⟨fr2.rem, 0, [], 0, none⟩ rfl rfl (by rw [rem2]) hir hcs
  refine ⟨⟨r3.rem, fr2.idx + r3.idx, fr2.arr, fr2.bufLen, fr2.err⟩, ?_, by rw [rem3], err2⟩
  rw [hbl] at e2
  unfold parseBlockBinary
  simp only [hread, Bool.not_true, Bool.false_eq_true, if_false, Reader.buf, htake,
    List.getD_cons_zero]
  rw [if_neg (by decide), hbl]
  simp only [e2]
  norm_num
  simp only [e3]

/-- Numeric range constraints for a lossless common block. -/
def CommonInRange (c : Common) : Prop :=
  0 ≤ c.lineHeight ∧ c.lineHeight < 65536 ∧
  0 ≤ c.base ∧ c.base < 65536 ∧
  0 ≤ c.scaleW ∧ c.scaleW < 65536 ∧
  0 ≤ c.scaleH ∧ c.scaleH < 65536 ∧
  0 ≤ c.pages ∧ c.pages < 65536 ∧
  0 ≤ c.alphaChannel ∧ c.alphaChannel < 256 ∧
  0 ≤ c.redChannel ∧ c.redChannel < 256 ∧
  0 ≤ c.greenChannel ∧ c.greenChannel < 256 ∧
  0 ≤ c.blueChannel ∧ c.blueChannel < 256

theorem parseBlock_common (fnt : Font) (fr : Reader) (c : Common) (rest : List Nat)
    (h0 : fr.err = none)
    (hrem : fr.rem = serializeCommonBlockBinary c ++ rest)
    (hcr : CommonInRange c) :
    ∃ fr2 : Reader, parseBlockBinary fnt fr = .done { fnt with common := c } fr2 ∧
      fr2.rem = rest ∧ fr2.err = none := by
  obtain ⟨k1, k2, k3, k4, k5, k6, k7, k8, k9, k10, k11, k12, k13, k14, k15, k16, k17, k18⟩ := hcr
  have hrem' : fr.rem = 2 :: (u32le 15 ++ (commonBody c ++ rest)) := by
    rw [hrem, serializeCommonBlock_decomp]
    simp
  obtain ⟨arr2, hread, htake⟩ := read_adv fr [2] _ 1 h0 rfl (by omega) (by simpa using hrem')
  obtain ⟨fr2, e2, rem2, idx2, err2⟩ :=
    readU32_adv ⟨_, fr.idx + 1, arr2, 1, none⟩ 15 (commonBody c ++ rest) rfl (by omega) rfl
  obtain ⟨r3, e3, rem3, err3⟩ :=
    parseCommonBinary_ser c rest ⟨fr2.rem, 0, [], 0, none⟩ rfl (by rw [rem2])
      k1 k2 k3 k4 k5 k6 k7 k8 k9 k10 k11 k12 k13 k14 k15 k16 k17 k18
  refine ⟨⟨r3.rem, fr2.idx + r3.idx, fr2.arr, fr2.bufLen, fr2.err⟩, ?_, by rw [rem3], err2⟩
  unfold parseBlockBinary
  simp only [hread, Bool.not_true, Bool.false_eq_true, if_false, Reader.buf, htake,
    List.getD_cons_zero]
  rw [if_neg (by decide)]
  simp only [e2]
  norm_num
  simp only [e3]

theorem parseBlock_pages (fnt : Font) (fr : Reader) (pages : List Page) (rest : List Nat)
    (h0 : fr.err = none)
    (hrem : fr.rem = serializePagesBlockBinary pages ++ rest)
    (hne : pages ≠ [])
    (hok : ∀ p ∈ pages, PageFileOk p.file)
    (hid : ∀ k (hk : k < pages.length), (pages.get ⟨k, hk⟩).id = (k : Int))
    (hbl : (maxNameLen pages + 1) * pages.length < 4294967296) :
    ∃ fr2 : Reader, parseBlockBinary fnt fr = .done { fnt with pages := pages } fr2 ∧
      fr2.rem = rest ∧ fr2.err = none := by
  have hrem' : fr.rem = 3 :: (u32le (toU32 (((maxNameLen pages : Int) + 1) * (pages.length : Int)))
      ++ (pagesBodyW (maxNameLen pages) pages ++ rest)) := by
    rw [hrem, serializePagesBlock_decomp]
    simp
  obtain ⟨arr2, hread, htake⟩ := read_adv fr [3] _ 1 h0 rfl (by omega) (by simpa using hrem')
  obtain ⟨fr2, e2, rem2, idx2, err2⟩ :=
    readU32_adv ⟨_, fr.idx + 1, arr2, 1, none⟩
      (toU32 (((maxNameLen pages : Int) + 1) * (pages.length : Int)))
      (pagesBodyW (maxNameLen pages) pages ++ rest) rfl (toU32_lt _) rfl
  have hblv : toU32 (((maxNameLen pages : Int) + 1) * (pages.length : Int))
      = (maxNameLen pages + 1) * pages.length := by
    have : ((maxNameLen pages : Int) + 1) * (pages.length : Int)
        = (((maxNameLen pages + 1) * pages.length : Nat) : Int) := by
      push_cast
      ring
    rw [this, toU32_ofNat _ hbl]
  obtain ⟨r3, e3, rem3, err3⟩ :=
    parsePagesBinary_ser pages rest ⟨fr2.rem, 0, [], 0, none⟩ rfl hne hok hid (by rw [rem2])
  refine ⟨⟨r3.rem, fr2.idx + r3.idx, fr2.arr, fr2.bufLen, fr2.err⟩, ?_, by rw [rem3], err2⟩
  rw [hblv] at e2
  unfold parseBlockBinary
  simp only [hread, Bool.not_true, Bool.false_eq_true, if_false, Reader.buf, htake,
    List.getD_cons_zero]
  rw [if_neg (by decide), hblv]
  simp only [e2]
  norm_num
  simp only [e3]

theorem parseBlock_chars (fnt : Font) (fr : Reader) (chars : List Char) (rest : List Nat)
    (h0 : fr.err = none)
    (hrem : fr.rem = serializeCharsBlockBinary chars ++ rest)
    (hok : ∀ c ∈ chars, CharInRange c)
    (hbl : 20 * chars.length < 4294967296) :
    ∃ fr2 : Reader, parseBlockBinary fnt fr = .done { fnt with chars := chars } fr2 ∧
      fr2.rem = rest ∧ fr2.err = none := by
  have hrem' : fr.rem = 4 :: (u32le (toU32 (20 * (chars.length : Int)))
      ++ (chars.flatMap charBytes ++ rest)) := by
    rw [hrem]
    simp [serializeCharsBlockBinary]
  obtain ⟨arr2, hread, htake⟩ := read_adv fr [4] _ 1 h0 rfl (by omega) (by simpa using hrem')
  obtain ⟨fr2, e2, rem2, idx2, err2⟩ :=
    readU32_adv ⟨_, fr.idx + 1, arr2, 1, none⟩ (toU32 (20 * (chars.length : Int)))
      (chars.flatMap charBytes ++ rest) rfl (toU32_lt _) rfl
  have hblv : toU32 (20 * (chars.length : Int)) = 20 * chars.length := by
    have : (20 * (chars.length : Int)) = ((20 * chars.length : Nat) : Int) := by push_cast; ring
    rw [this, toU32_ofNat _ hbl]
  obtain ⟨r3, e3, rem3, err3⟩ :=
    parseCharsBinary_ser chars rest ⟨fr2.rem, 0, [], 0, none⟩ rfl hok (by rw [rem2])
  refine ⟨⟨r3.rem, fr2.idx + r3.idx, fr2.arr, fr2.bufLen, fr2.err⟩, ?_, by rw [rem3], err2⟩
  rw [hblv] at e2
  unfold parseBlockBinary
  simp only [hread, Bool.not_true, Bool.false_eq_true, if_false, Reader.buf, htake,
    List.getD_cons_zero]
  rw [if_neg (by decide), hblv]
  simp only [e2]
  norm_num
  simp only [e3]

theorem parseBlock_kerns (fnt : Font) (fr : Reader) (ks : List Kerning) (rest : List Nat)
    (h0 : fr.err = none)
    (hrem : fr.rem = serializeKerningsBlockBinary ks ++ rest)
    (hok : ∀ k ∈ ks, KernInRange k)
    (hbl : 10 * ks.length < 4294967296) :
    ∃ fr2 : Reader, parseBlockBinary fnt fr = .done { fnt with kernings := ks } fr2 ∧
      fr2.rem = rest ∧ fr2.err = none := by
  have hrem' : fr.rem = 5 :: (u32le (toU32 (10 * (ks.length : Int)))
      ++ (ks.flatMap kernBytes ++ rest)) := by
    rw [hrem]
    simp [serializeKerningsBlockBinary]
  obtain ⟨arr2, hread, htake⟩ := read_adv fr [5] _ 1 h0 rfl (by omega) (by simpa using hrem')
  obtain ⟨fr2, e2, rem2, idx2, err2⟩ :=
    readU32_adv ⟨_, fr.idx + 1, arr2, 1, none⟩ (toU32 (10 * (ks.length : Int)))
      (ks.flatMap kernBytes ++ rest) rfl (toU32_lt _) rfl
  have hblv : toU32 (10 * (ks.length : Int)) = 10 * ks.length := by
    have : (10 * (ks.length : Int)) = ((10 * ks.length : Nat) : Int) := by push_cast; ring
    rw [this, toU32_ofNat _ hbl]
  obtain ⟨r3, e3, rem3, err3⟩ :=
    parseKerningPairsBinary_ser ks rest ⟨fr2.rem, 0, [], 0, none⟩ rfl hok (by rw [rem2])
  refine ⟨⟨r3.rem, fr2.idx + r3.idx, fr2.arr, fr2.bufLen, fr2.err⟩, ?_, by rw [rem3], err2⟩
  rw [hblv] at e2
  unfold parseBlockBinary
  simp only [hread, Bool.not_true, Bool.false_eq_true, if_false, Reader.buf, htake,
    List.getD_cons_zero]
  rw [if_neg (by decide), hblv]
  simp only [e2]
  norm_num
  simp only [e3]

/-! ## Header and block loop -/

theorem parseHeaderBinary_ok (r : Reader) (rest : List Nat)
    (h0 : r.err = none) (hrem : r.rem = [66, 77, 70, 3] ++ rest) :
    ∃ r2 : Reader, parseHeaderBinary r = .ok r2 ∧
      r2.rem = rest ∧ r2.idx = r.idx + 4 ∧ r2.err = none := by
  obtain ⟨r1, e1, rem1, idx1, err1⟩ :=
    readStringN_adv r [66, 77, 70] (3 :: rest) 3 h0 rfl (by omega) (by rw [hrem]; rfl)
  obtain ⟨r2, e2, rem2, idx2, err2⟩ := readU8_adv r1 3 rest err1 rem1
  refine ⟨r2, ?_, rem2, by omega, err2⟩
  unfold parseHeaderBinary
  rw [e1]
  norm_num
  simp only [e2]
  norm_num

theorem parseBlocks_step (fnt fnt' : Font) (fr fr' : Reader) (fuel : Nat)
    (h : parseBlockBinary fnt fr = .done fnt' fr') :
    parseBlocks fnt fr (fuel + 1) = parseBlocks fnt' fr' fuel := by
  have hstep : parseBlocks fnt fr (fuel + 1)
      = match parseBlockBinary fnt fr with
        | .eofEnd _ => .ok fnt
        | .fail e => .error e
        | .done fnt2 fr2 => parseBlocks fnt2 fr2 fuel := rfl
  rw [hstep, h]

theorem parseBlock_eofTerm (fnt : Font) (fr : Reader)
    (h0 : fr.err = none) (hrem : fr.rem = []) :
    ∃ e, parseBlockBinary fnt fr = .eofEnd e := by
  refine ⟨⟨fr.idx, 0, 0, .eof⟩, ?_⟩
  unfold parseBlockBinary
  have hread : fr.read 1 = ({ fr with
      arr := if fr.arr.length ≤ 1 then List.replicate 1 0 else fr.arr,
      bufLen := 1, err := some .eof }, false) := by
    unfold Reader.read
    rw [h0, hrem]
    simp
  simp only [hread]
  simp

theorem parseBlocks_end (fnt : Font) (fr : Reader) (fuel : Nat)
    (h0 : fr.err = none) (hrem : fr.rem = []) :
    parseBlocks fnt fr (fuel + 1) = .ok fnt := by
  obtain ⟨e, he⟩ := parseBlock_eofTerm fnt fr h0 hrem
  have hstep : parseBlocks fnt fr (fuel + 1)
      = match parseBlockBinary fnt fr with
        | .eofEnd _ => .ok fnt
        | .fail e => .error e
        | .done fnt2 fr2 => parseBlocks fnt2 fr2 fuel := rfl
  rw [hstep, he]

/-! ## The amended binary round trip -/

/-- All conditions under which the binary encoding of a `Font` is
lossless: numeric fields fit their wire widths (including the uint32
block-length fields), the charset string is stable under the charset
table encoding, the pages list is non-empty with positional ids and
page file names free of NUL bytes and of their own leading or trailing
spaces. -/
def ValidFont (f : Font) : Prop :=
  InfoInRange f.info ∧ CharsetStable f.info ∧ CommonInRange f.common ∧
  f.pages ≠ [] ∧
  (∀ p ∈ f.pages, PageFileOk p.file) ∧
  (∀ k (hk : k < f.pages.length), (f.pages.get ⟨k, hk⟩).id = (k : Int)) ∧
  (maxNameLen f.pages + 1) * f.pages.length < 4294967296 ∧
  (∀ c ∈ f.chars, CharInRange c) ∧ 20 * f.chars.length < 4294967296 ∧
  (∀ k ∈ f.kernings, KernInRange k) ∧ 10 * f.kernings.length < 4294967296

theorem ParseBinary_SerializeBinary (f : Font) (hv : ValidFont f) :
    ParseBinary (SerializeBinary f) = .ok f := by
  obtain ⟨hinfo, hcs, hcommon, hne, hpok, hpid, hpbl, hcok, hcbl, hkok, hkbl⟩ := hv
  set B1 := serializeInfoBlockBinary f.info with hB1
  set B2 := serializeCommonBlockBinary f.common with hB2
  set B3 := serializePagesBlockBinary f.pages with hB3
  set B4 := serializeCharsBlockBinary f.chars with hB4
  set B5 := serializeKerningsBlockBinary f.kernings with hB5
  have hser : SerializeBinary f = [66, 77, 70, 3] ++ (B1 ++ (B2 ++ (B3 ++ (B4 ++ B5)))) := by
    rw [SerializeBinary]
    simp
  unfold ParseBinary
  rw [hser]
  obtain ⟨fr0, e0, rem0, idx0, err0⟩ :=
    parseHeaderBinary_ok ⟨[66, 77, 70, 3] ++ (B1 ++ (B2 ++ (B3 ++ (B4 ++ B5)))), 0, [], 0, none⟩
      (B1 ++ (B2 ++ (B3 ++ (B4 ++ B5)))) rfl rfl
  simp only [e0]
  obtain ⟨fr1, e1, rem1, err1⟩ :=
    parseBlock_info emptyFont fr0 f.info (B2 ++ (B3 ++ (B4 ++ B5))) err0
      (by rw [rem0, hB1]) hinfo hcs
  obtain ⟨fr2, e2, rem2, err2⟩ :=
    parseBlock_common { emptyFont with info := f.info } fr1 f.common (B3 ++ (B4 ++ B5)) err1
      (by rw [rem1, hB2]) hcommon
  obtain ⟨fr3, e3, rem3, err3⟩ :=
    parseBlock_pages { emptyFont with info := f.info, common := f.common } fr2 f.pages
      (B4 ++ B5) err2 (by rw [rem2, hB3]) hne hpok hpid hpbl
  obtain ⟨fr4, e4, rem4, err4⟩ :=
    parseBlock_chars { emptyFont with info := f.info, common := f.common, pages := f.pages }
      fr3 f.chars B5 err3 (by rw [rem3, hB4]) hcok hcbl
  obtain ⟨fr5, e5, rem5, err5⟩ :=
    parseBlock_kerns
      { emptyFont with
          info := f.info, common := f.common, pages := f.pages, chars := f.chars }
      fr4 f.kernings [] err4 (by rw [rem4, hB5]; simp) hkok hkbl
  have hfe : ({ emptyFont with
      info := f.info, common := f.common, pages := f.pages, chars := f.chars,
      kernings := f.kernings } : Font) = f := rfl
  have hfuel : ∃ m, fr0.rem.length + 1 = m + 1 + 1 + 1 + 1 + 1 + 1 := by
    refine ⟨fr0.rem.length - 5, ?_⟩
    have : 5 ≤ fr0.rem.length := by
      rw [rem0]
      have : 5 ≤ B1.length := by
        rw [hB1, serializeInfoBlock_decomp]
        simp [u32le]
      simp [List.length_append]
      omega
    omega
  obtain ⟨m, hm⟩ := hfuel
  rw [hm]
  rw [parseBlocks_step _ _ _ _ _ e1, parseBlocks_step _ _ _ _ _ e2,
    parseBlocks_step _ _ _ _ _ e3, parseBlocks_step _ _ _ _ _ e4,
    parseBlocks_step _ _ _ _ _ e5]
  rw [hfe] at *
  exact parseBlocks_end f fr5 m err5 rem5

/-! ## Text codec -/

/-- `atoi` helper of the text codec: parse a decimal integer, storing 0
on failure. -/
def atoiZ (a : List Nat) : Int :=
  match goAtoi a with
  | some v => v
  | none => 0

/-- Split off the segment before the first occurrence of byte `b`. -/
def splitFirstByte (b : Nat) : List Nat → Option (List Nat × List Nat)
  | [] => none
  | a :: t =>
    if a = b then some ([], t)
    else
      match splitFirstByte b t with
      | none => none
      | some (pre, rest) => some (a :: pre, rest)

/-- `strings.SplitN(s, ",", n)` for `n > 0`: at most `n` substrings, the
last one holding the unsplit remainder. -/
def splitNComma : Nat → List Nat → List (List Nat)
  | 0, _ => []
  | n + 1, s =>
    if n = 0 then [s]
    else
      match splitFirstByte 44 s with
      | none => [s]
      | some (pre, rest) => pre :: splitNComma n rest

/-- `parsePadding`: four comma-joined integers via `SplitN(s, ",", 4)`
with `"0"` defaults appended. -/
def parsePadding (s : List Nat) : Padding :=
  let v := splitNComma 4 s ++ [[48], [48], [48], [48]]
  { up := atoiZ (v.getD 0 []), right := atoiZ (v.getD 1 []),
    down := atoiZ (v.getD 2 []), left := atoiZ (v.getD 3 []) }

/-- `parseSpacing`: two comma-joined integers via `SplitN(s, ",", 4)`
with `"0"` defaults appended. -/
def parseSpacing (s : List Nat) : Spacing :=
  let v := splitNComma 4 s ++ [[48], [48]]
  { horizontal := atoiZ (v.getD 0 []), vertical := atoiZ (v.getD 1 []) }

/-- The quote-extraction loop of `parseTagText`: scan the line,
keeping bytes outside quotes (and each opening quote) in the stripped
line, collecting quoted segments, and failing on an unterminated
quote.  `inQ` is whether the scan is inside a quoted segment and `cur`
its reversed accumulator. -/
def extractQuoted : List Nat → Bool → List Nat → (List Nat × List (List Nat) × Bool)
  | [], false, _ => ([], [], true)
  | [], true, _ => ([], [], false)
  | b :: t, false, _ =>
    if b = 34 then
      let (st, qs, ok) := extractQuoted t true []
      (34 :: st, qs, ok)
    else
      let (st, qs, ok) := extractQuoted t false []
      (b :: st, qs, ok)
  | b :: t, true, cur =>
    if b = 34 then
      let (st, qs, ok) := extractQuoted t false []
      (st, cur.reverse :: qs, ok)
    else extractQuoted t true (b :: cur)

/-- ASCII whitespace test of `strings.Fields`. -/
def isWS (b : Nat) : Bool := b = 32 || b = 9 || b = 10 || b = 11 || b = 12 || b = 13

/-- Helper of `fieldsWS` carrying the reversed current field. -/
def fieldsAux : List Nat → List Nat → List (List Nat)
  | [], cur => if cur.isEmpty then [] else [cur.reverse]
  | b :: t, cur =>
    if isWS b then
      if cur.isEmpty then fieldsAux t [] else cur.reverse :: fieldsAux t []
    else fieldsAux t (b :: cur)

/-- `strings.Fields`: split around runs of whitespace. -/
def fieldsWS (s : List Nat) : List (List Nat) := fieldsAux s []

/-- Helper of `splitAllByte` carrying the reversed current segment. -/
def splitAllAux (sep : Nat) : List Nat → List Nat → List (List Nat)
  | [], cur => [cur.reverse]
  | b :: t, cur =>
    if b = sep then cur.reverse :: splitAllAux sep t []
    else splitAllAux sep t (b :: cur)

/-- `strings.Split`: split at every occurrence of `sep`. -/
def splitAllByte (sep : Nat) (s : List Nat) : List (List Nat) := splitAllAux sep s []

/-- Map-style insert-or-overwrite for the attribute table. -/
def insertKV (m : List (List Nat × Int)) (k : List Nat) (v : Int) : List (List Nat × Int) :=
  if m.any (fun p => p.1 == k) then m.map (fun p => if p.1 == k then (k, v) else p)
  else m ++ [(k, v)]

/-- The `key=value` loop of `parseTagText`: a quote placeholder value
stores the running quoted-string index, a decimal value stores the
number itself, and any other value is appended to the string table. -/
def parseAttrs : List (List Nat) → Nat → List (List Nat) → List (List Nat × Int) →
    Except String (List (List Nat × Int) × List (List Nat))
  | [], _, strs, values => .ok (values, strs)
  | f :: fs, strIdx, strs, values =>
    let kv := splitAllByte 61 f
    if kv.length = 2 then
      let key := kv.getD 0 []
      let value := kv.getD 1 []
      if value = [34] then parseAttrs fs (strIdx + 1) strs (insertKV values key (strIdx : Int))
      else
        match goAtoi value with
        | some num => parseAttrs fs strIdx strs (insertKV values key num)
        | none => parseAttrs fs strIdx (strs ++ [value]) (insertKV values key (strs.length : Int))
    else .error "expected key-value pair"

/-- `parseTagText`: extract quoted strings, split the stripped line on
whitespace, and classify each `key=value` pair. -/
def parseTagText (line : List Nat) :
    Except String (List Nat × List (List Nat × Int) × List (List Nat)) :=
  let (stripped, strs0, ok) := extractQuoted line false []
  if !ok then .error "expected closing quote"
  else
    match fieldsWS stripped with
    | [] => .error "expected non empty tag"
    | name :: attrs =>
      match parseAttrs attrs 0 strs0 [] with
      | .error e => .error e
      | .ok (values, strs) => .ok (name, values, strs)

/-- The string-table lookup `strs[v]`.  Go panics when the index is out
of range; the panic is modelled as `none`. -/
def strAt (strs : List (List Nat)) (v : Int) : Option (List Nat) :=
  if 0 ≤ v ∧ v < (strs.length : Int) then strs.get? v.toNat else none

/-- Attribute keys as byte strings. -/
def keySize : List Nat := [115, 105, 122, 101]
def keyFace : List Nat := [102, 97, 99, 101]
def keyBold : List Nat := [98, 111, 108, 100]
def keyItalic : List Nat := [105, 116, 97, 108, 105, 99]
def keyCharset : List Nat := [99, 104, 97, 114, 115, 101, 116]
def keyUnicode : List Nat := [117, 110, 105, 99, 111, 100, 101]
def keyStretchH : List Nat := [115, 116, 114, 101, 116, 99, 104, 72]
def keySmooth : List Nat := [115, 109, 111, 111, 116, 104]
def keyAA : List Nat := [97, 97]
def keyPadding : List Nat := [112, 97, 100, 100, 105, 110, 103]
def keySpacing : List Nat := [115, 112, 97, 99, 105, 110, 103]
def keyOutline : List Nat := [111, 117, 116, 108, 105, 110, 101]
def keyId : List Nat := [105, 100]
def keyFile : List Nat := [102, 105, 108, 101]
def keyX : List Nat := [120]
def keyY : List Nat := [121]
def keyWidth : List Nat := [119, 105, 100, 116, 104]
def keyHeight : List Nat := [104, 101, 105, 103, 104, 116]
def keyXOffset : List Nat := [120, 111, 102, 102, 115, 101, 116]
def keyYOffset : List Nat := [121, 111, 102, 102, 115, 101, 116]
def keyXAdvance : List Nat := [120, 97, 100, 118, 97, 110, 99, 101]
def keyPage : List Nat := [112, 97, 103, 101]
def keyChnl : List Nat := [99, 104, 110, 108]
def keyLineHeight : List Nat := [108, 105, 110, 101, 72, 101, 105, 103, 104, 116]
def keyBase : List Nat := [98, 97, 115, 101]
def keyScaleW : List Nat := [115, 99, 97, 108, 101, 87]
def keyScaleH : List Nat := [115, 99, 97, 108, 101, 72]
def keyPages : List Nat := [112, 97, 103, 101, 115]
def keyPacked : List Nat := [112, 97, 99, 107, 101, 100]
def keyAlphaChnl : List Nat := [97, 108, 112, 104, 97, 67, 104, 110, 108]
def keyRedChnl : List Nat := [114, 101, 100, 67, 104, 110, 108]
def keyGreenChnl : List Nat := [103, 114, 101, 101, 110, 67, 104, 110, 108]
def keyBlueChnl : List Nat := [98, 108, 117, 101, 67, 104, 110, 108]
def keyFirst : List Nat := [102, 105, 114, 115, 116]
def keySecond : List Nat := [115, 101, 99, 111, 110, 100]
def keyAmount : List Nat := [97, 109, 111, 117, 110, 116]
def tagInfo : List Nat := [105, 110, 102, 111]
def tagCommon : List Nat := [99, 111, 109, 109, 111, 110]
def tagChar : List Nat := [99, 104, 97, 114]
def tagPage : List Nat := [112, 97, 103, 101]
def tagKerning : List Nat := [107, 101, 114, 110, 105, 110, 103]

/-- One attribute of `parseInfoText`; string-valued attributes index the
string table and can therefore panic (`none`). -/
def applyInfoAttr (strs : List (List Nat)) (info : Info) (kv : List Nat × Int) : Option Info :=
  let k := kv.1
  let v := kv.2
  if k = keySize then some { info with size := v }
  else if k = keyFace then
    match strAt strs v with
    | none => none
    | some s => some { info with face := s }
  else if k = keyBold then some { info with bold := bOfInt v }
  else if k = keyItalic then some { info with italic := bOfInt v }
  else if k = keyCharset then
    match strAt strs v with
    | none => none
    | some s => some { info with charset := s }
  else if k = keyUnicode then some { info with unicode := bOfInt v }
  else if k = keyStretchH then some { info with stretchH := v }
  else if k = keySmooth then some { info with smooth := bOfInt v }
  else if k = keyAA then some { info with aa := v }
  else if k = keyPadding then
    match strAt strs v with
    | none => none
    | some s => some { info with padding := parsePadding s }
  else if k = keySpacing then
    match strAt strs v with
    | none => none
    | some s => some { info with spacing := parseSpacing s }
  else if k = keyOutline then some { info with outline := v }
  else some info

/-- `parseInfoText` over the attribute table. -/
def parseInfoText (attribs : List (List Nat × Int)) (strs : List (List Nat)) : Option Info :=
  attribs.foldlM (applyInfoAttr strs) emptyFont.info

/-- One attribute of `parseCharText` (all integer-valued, total). -/
def applyCharAttr (c : Char) (kv : List Nat × Int) : Char :=
  let k := kv.1
  let v := kv.2
  if k = keyId then { c with id := v }
  else if k = keyX then { c with x := v }
  else if k = keyY then { c with y := v }
  else if k = keyWidth then { c with width := v }
  else if k = keyHeight then { c with height := v }
  else if k = keyXOffset then { c with xoffset := v }
  else if k = keyYOffset then { c with yoffset := v }
  else if k = keyXAdvance then { c with xadvance := v }
  else if k = keyPage then { c with page := v }
  else if k = keyChnl then { c with channel := v }
  else c

/-- `parseCharText`. -/
def parseCharText (attribs : List (List Nat × Int)) : Char :=
  attribs.foldl applyCharAttr ⟨0, 0, 0, 0, 0, 0, 0, 0, 0, 0⟩

/-- One attribute of `parseCommonText` (all integer-valued, total). -/
def applyCommonAttr (c : Common) (kv : List Nat × Int) : Common :=
  let k := kv.1
  let v := kv.2
  if k = keyLineHeight then { c with lineHeight := v }
  else if k = keyBase then { c with base := v }
  else if k = keyScaleW then { c with scaleW := v }
  else if k = keyScaleH then { c with scaleH := v }
  else if k = keyPages then { c with pages := v }
  else if k = keyPacked then { c with packed := bOfInt v }
  else if k = keyAlphaChnl then { c with alphaChannel := v }
  else if k = keyRedChnl then { c with redChannel := v }
  else if k = keyGreenChnl then { c with greenChannel := v }
  else if k = keyBlueChnl then { c with blueChannel := v }
  else c

/-- `parseCommonText`. -/
def parseCommonText (attribs : List (List Nat × Int)) : Common :=
  attribs.foldl applyCommonAttr emptyFont.common

/-- One attribute of `parseKerningPairText` (total). -/
def applyKerningAttr (kern : Kerning) (kv : List Nat × Int) : Kerning :=
  let k := kv.1
  let v := kv.2
  if k = keyFirst then { kern with first := v }
  else if k = keySecond then { kern with second := v }
  else if k = keyAmount then { kern with amount := v }
  else kern

/-- `parseKerningPairText`. -/
def parseKerningPairText (attribs : List (List Nat × Int)) : Kerning :=
  attribs.foldl applyKerningAttr ⟨0, 0, 0⟩

/-- One attribute of `parsePageText`; the file attribute indexes the
string table and can panic (`none`). -/
def applyPageAttr (strs : List (List Nat)) (page : Page) (kv : List Nat × Int) : Option Page :=
  let k := kv.1
  let v := kv.2
  if k = keyId then some { page with id := v }
  else if k = keyFile then
    match strAt strs v with
    | none => none
    | some s => some { page with file := s }
  else some page

/-- `parsePageText`. -/
def parsePageText (attribs : List (List Nat × Int)) (strs : List (List Nat)) : Option Page :=
  attribs.foldlM (applyPageAttr strs) ⟨0, []⟩

/-- `TextParseError`: 1-based line number, the raw line, and the cause. -/
structure TextParseError where
  lineNumber : Nat
  line : List Nat
  err : String
  deriving DecidableEq, Repr

/-- Strip one trailing carriage return (`bufio.ScanLines`). -/
def dropCR (l : List Nat) : List Nat := if l.getLast? = some 13 then l.dropLast else l

/-- Split input into scanner lines: newline-separated, no final empty
line after a trailing newline, carriage returns stripped. -/
def splitLines (s : List Nat) : List (List Nat) :=
  if s.isEmpty then []
  else
    let parts := splitAllByte 10 s
    let parts := if s.getLast? = some 10 then parts.dropLast else parts
    parts.map dropCR

/-- The per-line loop of `ParseText` over numbered lines.  `none`
models a runtime panic inside a tag parser. -/
def parseTextLoop : List (Nat × List Nat) → Font → Option (Except TextParseError Font)
  | [], fnt => some (.ok fnt)
  | (nr, line) :: rest, fnt =>
    match parseTagText line with
    | .error e => some (.error ⟨nr, line, e⟩)
    | .ok (name, values, strs) =>
      if name = tagInfo then
        match parseInfoText values strs with
        | none => none
        | some info => parseTextLoop rest { fnt with info := info }
      else if name = tagChar then
        parseTextLoop rest { fnt with chars := fnt.chars ++ [parseCharText values] }
      else if name = tagCommon then
        parseTextLoop rest { fnt with common := parseCommonText values }
      else if name = tagPage then
        match parsePageText values strs with
        | none => none
        | some page => parseTextLoop rest { fnt with pages := fnt.pages ++ [page] }
      else if name = tagKerning then
        parseTextLoop rest { fnt with kernings := fnt.kernings ++ [parseKerningPairText values] }
      else parseTextLoop rest fnt

/-- `ParseText` over an in-memory byte sequence.  The result is `none`
exactly when the Go code panics (an out-of-range string-table index),
otherwise the parsed `Font` or the `TextParseError`. -/
def ParseText (data : List Nat) : Option (Except TextParseError Font) :=
  parseTextLoop ((splitLines data).enum.map (fun p => (p.1 + 1, p.2))) emptyFont

/-! ## Format auto-detection -/

instance : DecidableEq (Except TextParseError Font) := fun a b =>
  match a, b with
  | .ok x, .ok y => if h : x = y then .isTrue (by rw [h]) else .isFalse (by simp [h])
  | .error x, .error y => if h : x = y then .isTrue (by rw [h]) else .isFalse (by simp [h])
  | .ok _, .error _ => .isFalse (by simp)
  | .error _, .ok _ => .isFalse (by simp)

/-- Outcome of the auto-detecting `Parse`.  The binary and XML branches
delegate wholesale to their codecs (`ParseBinary` / `ParseXML`) and are
modelled as routing outcomes; the text branch carries the embedded text
codec result so that text-codec errors are visibly surfaced. -/
inductive AutoResult where
  | insufficientData
  | binaryRoute
  | xmlRoute
  | textResult (r : Option (Except TextParseError Font))
  deriving DecidableEq, Repr

/-- `Parse` from bmf.go: fewer than 5 bytes is an insufficient-data
error; a `BMF` prefix routes to the binary codec; a `<?xml` prefix
routes to the XML codec; everything else goes to the text codec. -/
def Parse (data : List Nat) : AutoResult :=
  if data.length < 5 then .insufficientData
  else if data.take 3 = [66, 77, 70] then .binaryRoute
  else if data.take 5 = [60, 63, 120, 109, 108] then .xmlRoute
  else .textResult (ParseText data)

/-! ## Comma-joined compound attributes -/

/-- Join components with comma bytes (the inverse presentation of a
comma-joined attribute value). -/
def joinComma : List (List Nat) → List Nat
  | [] => []
  | [c] => c
  | c :: d :: t => c ++ 44 :: joinComma (d :: t)

theorem splitFirstByte_none (s : List Nat) (h : 44 ∉ s) : splitFirstByte 44 s = none := by
  induction s with
  | nil => rfl
  | cons a t ih =>
    unfold splitFirstByte
    have ha : a ≠ 44 := fun hq => h (by simp [hq])
    rw [if_neg ha, ih (fun hq => h (by simp [hq]))]

theorem splitFirstByte_found (c r : List Nat) (h : 44 ∉ c) :
    splitFirstByte 44 (c ++ 44 :: r) = some (c, r) := by
  induction c with
  | nil => simp [splitFirstByte]
  | cons a t ih =>
    have ha : a ≠ 44 := fun hq => h (by simp [hq])
    have ht : 44 ∉ t := fun hq => h (by simp [hq])
    rw [List.cons_append]
    show (if a = 44 then some ([], t ++ 44 :: r)
      else match splitFirstByte 44 (t ++ 44 :: r) with
           | none => none
           | some (pre, rest) => some (a :: pre, rest)) = some (a :: t, r)
    rw [if_neg ha, ih ht]

theorem splitNComma_join (n : Nat) :
    ∀ comps : List (List Nat), comps ≠ [] → (∀ c ∈ comps, 44 ∉ c) →
    splitNComma (n + 1) (joinComma comps) =
      if comps.length ≤ n + 1 then comps
      else comps.take n ++ [joinComma (comps.drop n)] := by
  induction n with
  | zero =>
    intro comps hne hfree
    match comps with
    | [c] => simp [splitNComma, joinComma]
    | c :: d :: t =>
      rw [if_neg (by simp)]
      simp [splitNComma]
  | succ m ih =>
    intro comps hne hfree
    match comps with
    | [c] =>
      rw [if_pos (by simp)]
      unfold splitNComma
      rw [if_neg (by omega)]
      rw [show joinComma [c] = c from rfl,
        splitFirstByte_none c (hfree c (by simp))]
    | c :: d :: t =>
      have hjoin : joinComma (c :: d :: t) = c ++ 44 :: joinComma (d :: t) := rfl
      unfold splitNComma
      rw [if_neg (by omega), hjoin, splitFirstByte_found c _ (hfree c (by simp))]
      show c :: splitNComma (m + 1) (joinComma (d :: t)) = _
      rw [ih (d :: t) (by simp) (fun q hq => hfree q (by simp [hq]))]
      by_cases hlen : (d :: t).length ≤ m + 1
      · rw [if_pos hlen, if_pos (by simp at hlen ⊢; omega)]
      · rw [if_neg hlen, if_neg (by simp at hlen ⊢; omega)]
        simp

theorem goAtoiDigits_mem44 (s : List Nat) (h : 44 ∈ s) : 44 ∈ goAtoiDigits s := by
  unfold goAtoiDigits
  split
  · next hhead =>
    rcases s with _ | ⟨b, t⟩
    · simp at h
    · simp only [List.head?_cons, Option.some.injEq] at hhead
      rcases List.mem_cons.mp h with hb | ht
    
      · omega
      · exact ht
  · exact h

theorem goAtoi_comma (s : List Nat) (h : 44 ∈ s) : goAtoi s = none := by
  have h44 : 44 ∈ goAtoiDigits s := goAtoiDigits_mem44 s h
  have hfalse : (goAtoiDigits s).all isDigit = false :=
    List.all_eq_false.mpr ⟨44, h44, by decide⟩
  unfold goAtoi
  rw [if_neg (by intro he; rw [he] at h44; simp at h44)]
  rw [hfalse]
  simp

theorem atoiZ_comma (s : List Nat) (h : 44 ∈ s) : atoiZ s = 0 := by
  unfold atoiZ
  rw [goAtoi_comma s h]

theorem joinComma_mem44 (a b : List Nat) (t : List (List Nat)) :
    44 ∈ joinComma (a :: b :: t) := by
  rw [show joinComma (a :: b :: t) = a ++ 44 :: joinComma (b :: t) from rfl]
  simp

/-- Behaviour of `parseSpacing` and `parsePadding` on a comma-joined
component list: spacing always takes the first two components (missing
ones default to 0); padding takes the first four when there are at most
four components, but with five or more the fourth `SplitN` piece is the
comma-joined remainder, which fails to parse, so `left` becomes 0. -/
theorem compound_attr_join (comps : List (List Nat)) (hne : comps ≠ [])
    (hfree : ∀ c ∈ comps, 44 ∉ c) :
    (parseSpacing (joinComma comps)
      = ⟨atoiZ (comps.getD 0 [48]), atoiZ (comps.getD 1 [48])⟩)
    ∧ (comps.length ≤ 4 → parsePadding (joinComma comps)
      = ⟨atoiZ (comps.getD 0 [48]), atoiZ (comps.getD 1 [48]),
         atoiZ (comps.getD 2 [48]), atoiZ (comps.getD 3 [48])⟩)
    ∧ (4 < comps.length → parsePadding (joinComma comps)
      = ⟨atoiZ (comps.getD 0 [48]), atoiZ (comps.getD 1 [48]),
         atoiZ (comps.getD 2 [48]), 0⟩) := by
  have hsplit := splitNComma_join 3 comps hne hfree
  norm_num at hsplit
  match comps with
  | [c0] =>
    rw [if_pos (by simp)] at hsplit
    refine ⟨?_, fun _ => ?_, fun hgt => absurd hgt (by simp)⟩
    · simp [parseSpacing, hsplit]
    · simp [parsePadding, hsplit]
  | [c0, c1] =>
    rw [if_pos (by simp)] at hsplit
    refine ⟨?_, fun _ => ?_, fun hgt => absurd hgt (by simp)⟩
    · simp [parseSpacing, hsplit]
    · simp [parsePadding, hsplit]
  | [c0, c1, c2] =>
    rw [if_pos (by simp)] at hsplit
    refine ⟨?_, fun _ => ?_, fun hgt => absurd hgt (by simp)⟩
    · simp [parseSpacing, hsplit]
    · simp [parsePadding, hsplit]
  | [c0, c1, c2, c3] =>
    rw [if_pos (by simp)] at hsplit
    refine ⟨?_, fun _ => ?_, fun hgt => absurd hgt (by simp)⟩
    · simp [parseSpacing, hsplit]
    · simp [parsePadding, hsplit]
  | c0 :: c1 :: c2 :: c3 :: c4 :: t =>
    rw [if_neg (by simp)] at hsplit
    have hz : atoiZ (joinComma (c3 :: c4 :: t)) = 0 :=
      atoiZ_comma _ (joinComma_mem44 c3 c4 t)
    refine ⟨?_, fun hle => absurd hle (by simp), fun _ => ?_⟩
    · simp [parseSpacing, hsplit]
    · simp [parsePadding, hsplit, hz]

/-! ## Error-side lemmas -/

theorem readU32_eof (r : Reader) (h0 : r.err = none) (hr : r.rem = []) : readU32 r = none := by
  unfold readU32
  have := read_eof r 4 h0 hr
  cases h : r.read 4 with
  | mk a b => rw [h] at this; simp at this; simp [this]

theorem readStringN_eof (r : Reader) (n : Nat) (h0 : r.err = none) (hr : r.rem = []) :
    readStringN r n = none := by
  unfold readStringN
  have := read_eof r n h0 hr
  cases h : r.read n with
  | mk a b => rw [h] at this; simp at this; simp [this]

theorem charsLoop_err (total : Nat) :
    ∀ (fuel idx : Nat) (r : Reader) (acc : List Char) (e : BErr) (rE : Reader),
    charsLoop total fuel idx r acc = .error (e, rE) →
    ∃ j inner, e = .atRecord j total inner ∧ idx + 1 ≤ j ∧ j ≤ idx + fuel := by
  intro fuel
  induction fuel with
  | zero =>
    intro idx r acc e rE h
    simp [charsLoop] at h
  | succ m ih =>
    intro idx r acc e rE h
    unfold charsLoop at h
    cases hstep : parseCharOne r with
    | error p =>
      rw [hstep] at h
      obtain ⟨e0, rE0⟩ := p
      simp at h
      exact ⟨idx + 1, e0, h.1.symm, by omega, by omega⟩
    | ok p =>
      rw [hstep] at h
      obtain ⟨c, r'⟩ := p
      obtain ⟨j, inner, hj, hj1, hj2⟩ := ih (idx + 1) r' (acc ++ [c]) e rE h
      exact ⟨j, inner, hj, by omega, by omega⟩

theorem kernsLoop_err (total : Nat) :
    ∀ (fuel idx : Nat) (r : Reader) (acc : List Kerning) (e : BErr) (rE : Reader),
    kernsLoop total fuel idx r acc = .error (e, rE) →
    ∃ j inner, e = .atRecord j total inner ∧ idx + 1 ≤ j ∧ j ≤ idx + fuel := by
  intro fuel
  induction fuel with
  | zero =>
    intro idx r acc e rE h
    simp [kernsLoop] at h
  | succ m ih =>
    intro idx r acc e rE h
    unfold kernsLoop at h
    cases hstep : parseKernOne r with
    | error p =>
      rw [hstep] at h
      obtain ⟨e0, rE0⟩ := p
      simp at h
      exact ⟨idx + 1, e0, h.1.symm, by omega, by omega⟩
    | ok p =>
      rw [hstep] at h
      obtain ⟨k, r'⟩ := p
      obtain ⟨j, inner, hj, hj1, hj2⟩ := ih (idx + 1) r' (acc ++ [k]) e rE h
      exact ⟨j, inner, hj, by omega, by omega⟩

theorem parseCharsBinary_notMultiple (brd : Reader) (bl : Nat) (h : bl % 20 ≠ 0) :
    parseCharsBinary brd bl
      = .error (.msg "expected a multiple of 20 bytes for charater block but was %d"
          [(bl : Int)], brd) := by
  unfold parseCharsBinary
  rw [if_pos h]

theorem parseKerningPairsBinary_notMultiple (brd : Reader) (bl : Nat) (h : bl % 10 ≠ 0) :
    parseKerningPairsBinary brd bl
      = .error (.msg "expected a multiple of 10 bytes for kerning pairs block but was %d"
          [(bl : Int)], brd) := by
  unfold parseKerningPairsBinary
  rw [if_pos h]

theorem parseCharsBinary_err_indexed (brd : Reader) (bl : Nat) (e : BErr) (rE : Reader)
    (hm : bl % 20 = 0) (h : parseCharsBinary brd bl = .error (e, rE)) :
    ∃ j inner, e = .atRecord j (bl / 20) inner ∧ 1 ≤ j ∧ j ≤ bl / 20 := by
  unfold parseCharsBinary at h
  rw [if_neg (by omega)] at h
  obtain ⟨j, inner, hj, hj1, hj2⟩ := charsLoop_err (bl / 20) (bl / 20) 0 brd [] e rE h
  exact ⟨j, inner, hj, by omega, by omega⟩

theorem parseKerningPairsBinary_err_indexed (brd : Reader) (bl : Nat) (e : BErr) (rE : Reader)
    (hm : bl % 10 = 0) (h : parseKerningPairsBinary brd bl = .error (e, rE)) :
    ∃ j inner, e = .atRecord j (bl / 10) inner ∧ 1 ≤ j ∧ j ≤ bl / 10 := by
  unfold parseKerningPairsBinary at h
  rw [if_neg (by omega)] at h
  obtain ⟨j, inner, hj, hj1, hj2⟩ := kernsLoop_err (bl / 10) (bl / 10) 0 brd [] e rE h
  exact ⟨j, inner, hj, by omega, by omega⟩

theorem parsePagesBinary_stride_reject (brd : Reader) (name0 rest : List Nat) (blockLength : Nat)
    (h0 : brd.err = none) (hnz : 0 ∉ name0) (hlt : name0.length < blockLength)
    (hrem : brd.rem = name0 ++ 0 :: rest)
    (hmod : blockLength % (name0.length + 1) ≠ 0) :
    ∃ rE, parsePagesBinary brd blockLength
      = .error (.msg "expected multiple of %d bytes for pages block but was %d"
          [((name0.length + 1 : Nat) : Int), (blockLength : Int)], rE) := by
  obtain ⟨r1, e1, rem1, idx1, err1⟩ := readNullString_adv brd name0 rest blockLength h0 hnz hlt hrem
  refine ⟨r1, ?_⟩
  unfold parsePagesBinary
  rw [e1]
  simp only [hmod, ne_eq, not_false_eq_true, if_true]

theorem parseBlock_badType (fnt : Font) (fr : Reader) (b : Nat) (rest : List Nat)
    (h0 : fr.err = none) (hrem : fr.rem = b :: rest) (hb : b = 0 ∨ 5 < b) :
    ∃ e, parseBlockBinary fnt fr = .fail e
      ∧ e.err = .msg "expected block type to be one of 1,2,3,4,5 but was %d" [(b : Int)]
      ∧ e.block = 0 := by
  obtain ⟨arr2, hread, htake⟩ := read_adv fr [b] rest 1 h0 rfl (by omega) (by simpa using hrem)
  refine ⟨⟨fr.idx + 1, 0, 0,
    .msg "expected block type to be one of 1,2,3,4,5 but was %d" [(b : Int)]⟩, ?_, rfl, rfl⟩
  unfold parseBlockBinary
  simp only [hread, Bool.not_true, Bool.false_eq_true, if_false, Reader.buf, htake,
    List.getD_cons_zero]
  rw [if_pos (by omega)]

theorem parseBlock_lenEOF (fnt : Font) (fr : Reader) (b : Nat)
    (h0 : fr.err = none) (hrem : fr.rem = [b]) (hb1 : 1 ≤ b) (hb5 : b ≤ 5) :
    ∃ e, parseBlockBinary fnt fr = .fail e
      ∧ e.err = .msg "expected four bytes for block length" [] := by
  obtain ⟨arr2, hread, htake⟩ := read_adv fr [b] [] 1 h0 rfl (by omega) (by simpa using hrem)
  refine ⟨⟨fr.idx + 1, b, 0, .msg "expected four bytes for block length" []⟩, ?_, rfl⟩
  unfold parseBlockBinary
  simp only [hread, Bool.not_true, Bool.false_eq_true, if_false, Reader.buf, htake,
    List.getD_cons_zero]
  rw [if_neg (by omega)]
  rw [readU32_eof ⟨[], fr.idx + 1, arr2, 1, none⟩ rfl rfl]

/-! ## Header validation -/

theorem parseHeaderBinary_err (data : List Nat)
    (h : data.take 3 ≠ [66, 77, 70] ∨ data.get? 3 ≠ some 3) :
    ∃ e, parseHeaderBinary ⟨data, 0, [], 0, none⟩ = .error e ∧ e.block = 0 := by
  match data with
  | [] =>
    refine ⟨⟨0, 0, 4, .msg "expected three bytes for the file identifier" []⟩, ?_, rfl⟩
    unfold parseHeaderBinary
    rw [readStringN_eof _ 3 rfl rfl]
  | [a] =>
    refine ⟨⟨1, 0, 4, .msg "expected BMF" []⟩, ?_, rfl⟩
    unfold parseHeaderBinary
    have hread : Reader.read ⟨[a], 0, [], 0, none⟩ 3 = (⟨[], 1, [a, 0, 0], 3, none⟩, true) := by
      unfold Reader.read
      simp [List.replicate]
    unfold readStringN
    rw [hread]
    simp [Reader.buf]
  | [a, b] =>
    refine ⟨⟨2, 0, 4, .msg "expected BMF" []⟩, ?_, rfl⟩
    unfold parseHeaderBinary
    have hread : Reader.read ⟨[a, b], 0, [], 0, none⟩ 3 = (⟨[], 2, [a, b, 0], 3, none⟩, true) := by
      unfold Reader.read
      simp [List.replicate]
    unfold readStringN
    rw [hread]
    simp [Reader.buf]
  | a :: b :: c :: rest =>
    obtain ⟨r1, e1, rem1, idx1, err1⟩ :=
      readStringN_adv ⟨a :: b :: c :: rest, 0, [], 0, none⟩ [a, b, c] rest 3 rfl rfl
        (by omega) rfl
    by_cases hbmf : [a, b, c] = [66, 77, 70]
    · have h3 : (a :: b :: c :: rest).get? 3 ≠ some 3 := by
        rcases h with h | h
        · exact absurd (by simpa using hbmf) h
        · exact h
      match rest with
      | [] =>
        refine ⟨⟨r1.idx, 0, 4, .msg "expected one byte for the format version" []⟩, ?_, rfl⟩
        unfold parseHeaderBinary
        simp only [e1]
        rw [if_neg (by simp [hbmf])]
        rw [readU8_eof r1 err1 rem1]
      | d :: rest2 =>
        have hd : d ≠ 3 := by simpa using h3
        obtain ⟨r2, e2, rem2, idx2, err2⟩ := readU8_adv r1 d rest2 err1 rem1
        refine ⟨⟨r2.idx, 0, 4, .msg "expected version to be one 3" []⟩, ?_, rfl⟩
        unfold parseHeaderBinary
        simp only [e1]
        rw [if_neg (by simp [hbmf])]
        simp only [e2]
        rw [if_pos hd]
    · refine ⟨⟨r1.idx, 0, 4, .msg "expected BMF" []⟩, ?_, rfl⟩
      unfold parseHeaderBinary
      simp only [e1]
      rw [if_pos hbmf]

theorem ParseBinary_header_err (data : List Nat)
    (h : data.take 3 ≠ [66, 77, 70] ∨ data.get? 3 ≠ some 3) :
    ∃ e, ParseBinary data = .error e ∧ e.block = 0 := by
  obtain ⟨e, he, hb⟩ := parseHeaderBinary_err data h
  refine ⟨e, ?_, hb⟩
  unfold ParseBinary
  rw [he]

/-- A byte sequence that passes both header checks decomposes into the
4-byte header followed by the block data. -/
theorem header_shape (data : List Nat)
    (h1 : data.take 3 = [66, 77, 70]) (h2 : data.get? 3 = some 3) :
    data = [66, 77, 70, 3] ++ data.drop 4 := by
  match data with
  | [] => simp at h1
  | [a] => simp at h1
  | [a, b] => simp at h1
  | [a, b, c] => simp at h2
  | a :: b :: c :: d :: rest =>
    simp at h1 h2
    obtain ⟨ha, hb, hc⟩ := h1
    subst ha; subst hb; subst hc; subst h2
    rfl

/-! ## Pages decoding on arbitrary well-formed blocks -/

theorem pagesLoop_gen (L : Nat) (bs : List (List Nat)) :
    ∀ (i : Nat) (acc : List Page) (r : Reader) (rest : List Nat),
    r.err = none →
    (∀ b ∈ bs, b.length = L) →
    r.rem = bs.flatMap (fun b => b ++ [0]) ++ rest →
    ∃ r2 : Reader, pagesLoop (L + 1) bs.length i r acc
        = .ok (acc ++ (bs.enumFrom i).map (fun p => ⟨(p.1 : Int), trimSpace p.2⟩), r2) ∧
      r2.rem = rest ∧ r2.err = none := by
  induction bs with
  | nil =>
    intro i acc r rest h0 _ hrem
    refine ⟨r, by simp [pagesLoop], by simpa using hrem, h0⟩
  | cons b t ih =>
    intro i acc r rest h0 hlen hrem
    have hblen : b.length = L := hlen b (by simp)
    obtain ⟨r1, e1, rem1, idx1, err1⟩ :=
      readStringN_adv r (b ++ [0]) (t.flatMap (fun b => b ++ [0]) ++ rest) (L + 1) h0
        (by simp [hblen]) (by omega) (by rw [hrem]; simp)
    obtain ⟨r2, e2, rem2, err2⟩ :=
      ih (i + 1) (acc ++ [⟨(i : Int), trimSpace b⟩]) r1 rest err1
        (fun q hq => hlen q (by simp [hq])) rem1
    refine ⟨r2, ?_, rem2, err2⟩
    show pagesLoop (L + 1) (t.length + 1) i r acc = _
    unfold pagesLoop
    simp only [e1]
    have hdl : (b ++ [0]).dropLast = b := by simp
    rw [hdl, e2]
    simp [List.enumFrom]

theorem parsePagesBinary_gen (b0 : List Nat) (bt : List (List Nat)) (rest : List Nat)
    (brd : Reader) (L : Nat)
    (h0 : brd.err = none)
    (hlen : ∀ b ∈ b0 :: bt, b.length = L)
    (hnz : 0 ∉ b0)
    (hrem : brd.rem = (b0 :: bt).flatMap (fun b => b ++ [0]) ++ rest) :
    ∃ r2 : Reader, parsePagesBinary brd ((L + 1) * (b0 :: bt).length)
        = .ok (((b0 :: bt).enum).map (fun p => ⟨(p.1 : Int), trimSpace p.2⟩), r2) ∧
      r2.rem = rest ∧ r2.err = none := by
  have hb0len : b0.length = L := hlen b0 (by simp)
  obtain ⟨r1, e1, rem1, idx1, err1⟩ :=
    readNullString_adv brd b0 (bt.flatMap (fun b => b ++ [0]) ++ rest)
      ((L + 1) * (b0 :: bt).length) h0 hnz
      (by rw [hb0len]; simp; nlinarith)
      (by rw [hrem]; simp)
  obtain ⟨r2, e2, rem2, err2⟩ :=
    pagesLoop_gen L bt 1 [⟨0, trimSpace b0⟩] r1 rest err1
      (fun q hq => hlen q (by simp [hq])) rem1
  refine ⟨r2, ?_, rem2, err2⟩
  unfold parsePagesBinary
  rw [e1]
  simp only [hb0len]
  have hdiv : (L + 1) * (b0 :: bt).length % (L + 1) = 0 := by simp [Nat.mul_mod_right]
  have hquot : (L + 1) * (b0 :: bt).length / (L + 1) = bt.length + 1 := by
    rw [show (b0 :: bt).length = bt.length + 1 from rfl,
      Nat.mul_div_cancel_left _ (by omega : 0 < L + 1)]
  rw [hdiv]
  simp only [ne_eq, not_true_eq_false, if_false, hquot, Nat.add_sub_cancel]
  rw [e2]
  simp [List.enum]

/-! ## Charset fallback machinery -/

/-- The info-block body whose charset id byte is `cs`, the unicode flag
clear, and every other field zero (empty face name). -/
def infoBodyCs (cs : Nat) : List Nat := [0, 0, 0, cs, 0, 0, 0, 0, 0, 0, 0, 0, 0, 0, 0]

theorem parseInfo_charset_fallback (cs : Nat)
    (hnotin : charsetTable.find? (fun p => p.1 == cs) = none) :
    ∃ r2, parseInfoBinary ⟨infoBodyCs cs, 0, [], 0, none⟩ 15
      = .ok ({ emptyFont.info with charset := natDecBytes cs }, r2) := by
  have hlook : lookupCharset cs = (natDecBytes cs, false) := by
    unfold lookupCharset
    rw [hnotin]
  have hN : (⟨infoBodyCs cs, 0, [], 0, none⟩ : Reader).rem
      = 0 :: 0 :: 0 :: cs :: 0 :: 0 :: 0 :: 0 :: 0 :: 0 :: 0 :: 0 :: 0 :: 0 :: ([] ++ 0 :: []) := by
    simp [infoBodyCs]
  obtain ⟨r1, e1, rem1, idx1, err1⟩ :=
    readI16_cons ⟨infoBodyCs cs, 0, [], 0, none⟩ _ _ _ rfl hN
  obtain ⟨r2, e2, rem2, idx2, err2⟩ := readU8_adv r1 _ _ err1 rem1
  obtain ⟨r3, e3, rem3, idx3, err3⟩ := readU8_adv r2 _ _ err2 rem2
  obtain ⟨r4, e4, rem4, idx4, err4⟩ := readU16_cons r3 _ _ _ err3 rem3
  obtain ⟨r5, e5, rem5, idx5, err5⟩ := readU8_adv r4 _ _ err4 rem4
  obtain ⟨r6, e6, rem6, idx6, err6⟩ := readU8_adv r5 _ _ err5 rem5
  obtain ⟨r7, e7, rem7, idx7, err7⟩ := readU8_adv r6 _ _ err6 rem6
  obtain ⟨r8, e8, rem8, idx8, err8⟩ := readU8_adv r7 _ _ err7 rem7
  obtain ⟨r9, e9, rem9, idx9, err9⟩ := readU8_adv r8 _ _ err8 rem8
  obtain ⟨r10, e10, rem10, idx10, err10⟩ := readU8_adv r9 _ _ err9 rem9
  obtain ⟨r11, e11, rem11, idx11, err11⟩ := readU8_adv r10 _ _ err10 rem10
  obtain ⟨r12, e12, rem12, idx12, err12⟩ := readU8_adv r11 _ _ err11 rem11
  have hbase : (⟨infoBodyCs cs, 0, [], 0, none⟩ : Reader).idx = 0 := rfl
  rw [hbase] at idx1
  have hfn : 15 - r12.idx = 1 := by omega
  obtain ⟨r13, e13, rem13, idx13, err13⟩ :=
    readStringN_adv r12 [0] [] 1 err12 rfl (by omega) (by rw [rem12]; simp)
  refine ⟨r13, ?_⟩
  unfold parseInfoBinary
  rw [if_neg (by omega : ¬ (15 < 15))]
  simp only [e1, readBits, e2, e3, e4, e5, e6, e7, e8, e9, e10, e11, e12, hfn, e13]
  simp only [hlook]
  simp [bOfInt, toSigned16, emptyFont]

theorem lowerB_eq_43 (b : Nat) :
    ((if 65 ≤ b ∧ b ≤ 90 then b + 32 else b) = 43) = (b = 43) := by
  by_cases h : 65 ≤ b ∧ b ≤ 90
  · rw [if_pos h, eq_iff_iff]
    constructor <;> omega
  · rw [if_neg h]

theorem lowerB_eq_45 (b : Nat) :
    ((if 65 ≤ b ∧ b ≤ 90 then b + 32 else b) = 45) = (b = 45) := by
  by_cases h : 65 ≤ b ∧ b ≤ 90
  · rw [if_pos h, eq_iff_iff]
    constructor <;> omega
  · rw [if_neg h]

theorem lowerB_isDigit (b : Nat) :
    isDigit (if 65 ≤ b ∧ b ≤ 90 then b + 32 else b) = isDigit b := by
  by_cases h : 65 ≤ b ∧ b ≤ 90
  · rw [if_pos h]
    have h1 : isDigit (b + 32) = false := by simp [isDigit]; omega
    have h2 : isDigit b = false := by simp [isDigit]; omega
    rw [h1, h2]
  · rw [if_neg h]

theorem lowerAscii_head43 (s : List Nat) :
    ((lowerAscii s).head? = some 43) ↔ (s.head? = some 43) := by
  cases s with
  | nil => simp [lowerAscii]
  | cons b t =>
    simp only [lowerAscii, List.map_cons, List.head?_cons, Option.some.injEq]
    rw [show ∀ p : Prop, ∀ hp : Decidable p, (if p then b + 32 else b) = 43
        ↔ ((if p then b + 32 else b) = 43) = True from fun p hp => by simp]
    rw [lowerB_eq_43]
    simp

theorem lowerAscii_head45 (s : List Nat) :
    ((lowerAscii s).head? = some 45) ↔ (s.head? = some 45) := by
  cases s with
  | nil => simp [lowerAscii]
  | cons b t =>
    simp only [lowerAscii, List.map_cons, List.head?_cons, Option.some.injEq]
    rw [show ∀ p : Prop, ∀ hp : Decidable p, (if p then b + 32 else b) = 45
        ↔ ((if p then b + 32 else b) = 45) = True from fun p hp => by simp]
    rw [lowerB_eq_45]
    simp

theorem goAtoiDigits_lower (s : List Nat) :
    goAtoiDigits (lowerAscii s) = lowerAscii (goAtoiDigits s) := by
  have hiff : ((lowerAscii s).head? = some 43 ∨ (lowerAscii s).head? = some 45)
      ↔ (s.head? = some 43 ∨ s.head? = some 45) := by
    constructor
    · intro hc
      rcases hc with hc | hc
      · exact Or.inl ((lowerAscii_head43 s).mp hc)
      · exact Or.inr ((lowerAscii_head45 s).mp hc)
    · intro hc
      rcases hc with hc | hc
      · exact Or.inl ((lowerAscii_head43 s).mpr hc)
      · exact Or.inr ((lowerAscii_head45 s).mpr hc)
  unfold goAtoiDigits
  by_cases h : s.head? = some 43 ∨ s.head? = some 45
  · rw [if_pos (hiff.mpr h), if_pos h]
    cases s with
    | nil => simp [lowerAscii]
    | cons b t => simp [lowerAscii]
  · rw [if_neg (fun hc => h (hiff.mp hc)), if_neg h]

theorem lowerAscii_all_digit (s : List Nat) :
    (lowerAscii s).all isDigit = s.all isDigit := by
  induction s with
  | nil => rfl
  | cons b t ih =>
    simp only [lowerAscii, List.map_cons, List.all_cons]
    rw [lowerB_isDigit b]
    rw [show List.map (fun b => if 65 ≤ b ∧ b ≤ 90 then b + 32 else b) t = lowerAscii t
      from rfl, ih]

theorem lowerAscii_of_digits (s : List Nat) (h : s.all isDigit = true) :
    lowerAscii s = s := by
  induction s with
  | nil => rfl
  | cons b t ih =>
    simp only [List.all_cons, Bool.and_eq_true] at h
    have hb := h.1
    unfold isDigit at hb
    simp at hb
    simp only [lowerAscii, List.map_cons]
    rw [if_neg (by omega)]
    rw [show List.map (fun b => if 65 ≤ b ∧ b ≤ 90 then b + 32 else b) t = lowerAscii t
      from rfl, ih h.2]

theorem goAtoi_lower (s : List Nat) : goAtoi (lowerAscii s) = goAtoi s := by
  unfold goAtoi
  rw [goAtoiDigits_lower]
  by_cases hnil : goAtoiDigits s = []
  · rw [hnil]
    simp [lowerAscii]
  · rw [if_neg (by simpa [lowerAscii] using hnil), if_neg hnil]
    rw [lowerAscii_all_digit]
    by_cases hdig : (goAtoiDigits s).all isDigit = true
    · rw [hdig, lowerAscii_of_digits _ hdig]
      simp only [if_true]
      by_cases h45 : (lowerAscii s).head? = some 45
      · rw [if_pos h45, if_pos ((lowerAscii_head45 s).mp h45)]
      · rw [if_neg h45, if_neg (fun hc => h45 ((lowerAscii_head45 s).mpr hc))]
    · rw [Bool.not_eq_true] at hdig
      rw [hdig]
      simp

theorem charsetByteOf_unresolvable (cs : List Nat)
    (hname : ∀ p ∈ charsetTable, lowerAscii p.2 ≠ lowerAscii cs)
    (hnum : goAtoi cs = none) :
    charsetByteOf cs = 0 := by
  have hfind : charsetTable.find? (fun p => lowerAscii p.2 == lowerAscii cs) = none := by
    rw [List.find?_eq_none]
    intro p hp
    simpa using hname p hp
  have hlow : goAtoi (lowerAscii cs) = none := by rw [goAtoi_lower, hnum]
  unfold charsetByteOf lookupCharsetValue
  rw [hfind, hlow]

/-! ## Claim theorems -/

/-- C1 counterexample: the round trip is not the identity on every
in-range `Font` with non-empty unpadded pages.  The empty charset string
with the unicode flag clear serializes to charset id 0, which parses
back as the string `"Ansi"` (`[65, 110, 115, 105]`). -/
theorem claimC1_counterexample :
    ParseBinary (SerializeBinary { emptyFont with pages := [⟨0, [97]⟩] })
      = .ok { emptyFont with
          info := { emptyFont.info with charset := [65, 110, 115, 105] },
          pages := [⟨0, [97]⟩] }
    ∧ ({ emptyFont with
          info := { emptyFont.info with charset := [65, 110, 115, 105] },
          pages := [⟨0, [97]⟩] } : Font)
        ≠ { emptyFont with pages := [⟨0, [97]⟩] } :=
  ⟨rfl, by decide⟩

/-- C1 (amended): for every `Font` whose numeric fields fit their binary
wire widths, whose charset string is stable under the charset-table
encoding, whose pages list is non-empty with positional ids and file
names free of NUL bytes and of leading or trailing spaces, and whose
block lengths fit uint32, `ParseBinary` inverts `SerializeBinary`
exactly. -/
theorem claimC1 (f : Font) (hv : ValidFont f) :
    ParseBinary (SerializeBinary f) = .ok f :=
  ParseBinary_SerializeBinary f hv

/-- A concrete valid font exercising every block of the round trip. -/
def fontW : Font :=
  { info := { face := [65, 66], size := -12, bold := true, italic := false,
              charset := [], unicode := true, stretchH := 100, smooth := true, aa := 1,
              padding := ⟨1, 2, 3, 4⟩, spacing := ⟨1, 1⟩, outline := 0 },
    common := { lineHeight := 14, base := 11, scaleW := 256, scaleH := 256, pages := 2,
                packed := false, alphaChannel := 1, redChannel := 0, greenChannel := 0,
                blueChannel := 0 },
    pages := [⟨0, [97, 46, 112, 110, 103]⟩, ⟨1, [98, 46, 112, 110, 103]⟩],
    chars := [⟨65, 0, 0, 10, 12, 1, 2, 11, 0, 15⟩],
    kernings := [⟨65, 86, -1⟩] }

/-- C1 witness: the round trip at a concrete two-page font. -/
theorem claimC1_witness :
    ValidFont fontW ∧ ParseBinary (SerializeBinary fontW) = .ok fontW := by
  have hv : ValidFont fontW := by
    refine ⟨?_, ?_, ?_, by decide, ?_, ?_, by decide, ?_, by decide, ?_, by decide⟩
    · simp only [InfoInRange]
      decide
    · simp only [CharsetStable]
      decide
    · simp only [CommonInRange]
      decide
    · simp only [PageFileOk, NoPadSpaces]
      decide
    · intro k hk
      have h2 : fontW.pages.length = 2 := rfl
      rw [h2] at hk
      interval_cases k <;> rfl
    · simp only [CharInRange]
      decide
    · simp only [KernInRange]
      decide
  exact ⟨hv, claimC1 fontW hv⟩

/-- C2 counterexample: serializing the charset string `"999"` writes the
uint8 truncation `999 % 256 = 231` into the info block, not the numeric
id 999 (byte 8 of the serialized block is the charset id byte). -/
theorem claimC2_counterexample :
    (serializeInfoBlockBinary { emptyFont.info with charset := [57, 57, 57] }).getD 8 0 = 231
    ∧ (231 : Nat) ≠ 999 :=
  ⟨rfl, by decide⟩

/-- C2 (amended): a binary info block whose charset id byte is not in
the charset table, with the unicode flag clear, parses to the decimal
string of that id; serializing the decimal string `"999"` writes the
uint8 truncation `toU8 999 = 231` (not 0, but not 999 either); and a
charset string that is neither a known name (case-insensitively) nor a
decimal literal serializes to 0. -/
theorem claimC2 (cs : Nat) (csStr : List Nat)
    (hnotin : charsetTable.find? (fun p => p.1 == cs) = none)
    (hname : ∀ p ∈ charsetTable, lowerAscii p.2 ≠ lowerAscii csStr)
    (hnum : goAtoi csStr = none) :
    (∃ r2, parseInfoBinary ⟨infoBodyCs cs, 0, [], 0, none⟩ 15
        = .ok ({ emptyFont.info with charset := natDecBytes cs }, r2))
    ∧ charsetByteOf [57, 57, 57] = toU8 999
    ∧ charsetByteOf csStr = 0 :=
  ⟨parseInfo_charset_fallback cs hnotin, by decide,
   charsetByteOf_unresolvable csStr hname hnum⟩

/-- C2 witness: charset id 100 parses to the string `"100"`, `"999"`
serializes to `toU8 999`, and the unresolvable string `"bogus"`
serializes to 0. -/
theorem claimC2_witness :
    (∃ r2, parseInfoBinary ⟨infoBodyCs 100, 0, [], 0, none⟩ 15
        = .ok ({ emptyFont.info with charset := natDecBytes 100 }, r2))
    ∧ charsetByteOf [57, 57, 57] = toU8 999
    ∧ charsetByteOf [98, 111, 103, 117, 115] = 0 :=
  claimC2 100 [98, 111, 103, 117, 115] (by decide) (by decide) (by decide)

/-- C3 counterexample: a stored page name `" a"` with a leading space
decodes to `"a"` — the leading space is trimmed too, not preserved. -/
theorem claimC3_counterexample :
    parsePagesBinary ⟨[32, 97, 0], 0, [], 0, none⟩ 3
      = .ok ([⟨0, [97]⟩], ⟨[], 3, [0], 1, none⟩)
    ∧ ([97] : List Nat) ≠ [32, 97] :=
  ⟨rfl, by decide⟩

/-- C3 (amended): in a well-formed binary pages block of equal-length
records, the i-th record yields a `Page` whose id is `i` and whose file
name is the record's bytes with the null terminator removed and spaces
trimmed from BOTH ends (`strings.Trim(name, " ")`), not only the
trailing padding. -/
theorem claimC3 (b0 : List Nat) (bt : List (List Nat)) (rest : List Nat)
    (brd : Reader) (L : Nat) (h0 : brd.err = none)
    (hlen : ∀ b ∈ b0 :: bt, b.length = L) (hnz : 0 ∉ b0)
    (hrem : brd.rem = (b0 :: bt).flatMap (fun b => b ++ [0]) ++ rest) :
    ∃ r2 : Reader, parsePagesBinary brd ((L + 1) * (b0 :: bt).length)
        = .ok (((b0 :: bt).enum).map (fun p => ⟨(p.1 : Int), trimSpace p.2⟩), r2) ∧
      r2.rem = rest ∧ r2.err = none :=
  parsePagesBinary_gen b0 bt rest brd L h0 hlen hnz hrem

/-- C3 witness: a two-record pages block whose names carry a leading and
a trailing space respectively decodes to ids 0,1 with both trimmed. -/
theorem claimC3_witness :
    ∃ r2 : Reader, parsePagesBinary ⟨[32, 97, 0, 98, 32, 0], 0, [], 0, none⟩ 6
        = .ok ([⟨0, [97]⟩, ⟨1, [98]⟩], r2) ∧ r2.rem = [] ∧ r2.err = none := by
  obtain ⟨r2, he, hrem, herr⟩ :=
    claimC3 [32, 97] [[98, 32]] [] ⟨[32, 97, 0, 98, 32, 0], 0, [], 0, none⟩ 2
      rfl (by decide) (by decide) rfl
  exact ⟨r2, he, hrem, herr⟩

/-- C4: a chars block whose length is not a multiple of 20 and a
kerning-pairs block whose length is not a multiple of 10 each fail with
the descriptive length error; and every error raised inside either
block's record loop is tagged `atRecord j total` with a 1-based record
index `1 ≤ j ≤ total` and the total expected record count. -/
theorem claimC4 :
    (∀ (brd : Reader) (bl : Nat), bl % 20 ≠ 0 →
      parseCharsBinary brd bl
        = .error (.msg "expected a multiple of 20 bytes for charater block but was %d"
            [(bl : Int)], brd))
    ∧ (∀ (brd : Reader) (bl : Nat), bl % 10 ≠ 0 →
      parseKerningPairsBinary brd bl
        = .error (.msg "expected a multiple of 10 bytes for kerning pairs block but was %d"
            [(bl : Int)], brd))
    ∧ (∀ (brd : Reader) (bl : Nat) (e : BErr) (rE : Reader), bl % 20 = 0 →
      parseCharsBinary brd bl = .error (e, rE) →
      ∃ j inner, e = .atRecord j (bl / 20) inner ∧ 1 ≤ j ∧ j ≤ bl / 20)
    ∧ (∀ (brd : Reader) (bl : Nat) (e : BErr) (rE : Reader), bl % 10 = 0 →
      parseKerningPairsBinary brd bl = .error (e, rE) →
      ∃ j inner, e = .atRecord j (bl / 10) inner ∧ 1 ≤ j ∧ j ≤ bl / 10) :=
  ⟨fun brd bl h => parseCharsBinary_notMultiple brd bl h,
   fun brd bl h => parseKerningPairsBinary_notMultiple brd bl h,
   fun brd bl e rE hm h => parseCharsBinary_err_indexed brd bl e rE hm h,
   fun brd bl e rE hm h => parseKerningPairsBinary_err_indexed brd bl e rE hm h⟩

/-- C4 witness: length 30 chars and length 15 kerning blocks are
rejected, and the errors of empty-stream 20-byte chars and 10-byte
kerning blocks are indexed `atRecord 1 1`. -/
theorem claimC4_witness :
    parseCharsBinary ⟨[], 0, [], 0, none⟩ 30
      = .error (.msg "expected a multiple of 20 bytes for charater block but was %d" [30],
          ⟨[], 0, [], 0, none⟩)
    ∧ parseKerningPairsBinary ⟨[], 0, [], 0, none⟩ 15
      = .error (.msg "expected a multiple of 10 bytes for kerning pairs block but was %d" [15],
          ⟨[], 0, [], 0, none⟩)
    ∧ (∃ j inner, (BErr.atRecord 1 1 (.msg "expected four bytes for id" []))
        = .atRecord j (20 / 20) inner ∧ 1 ≤ j ∧ j ≤ 20 / 20)
    ∧ (∃ j inner, (BErr.atRecord 1 1 (.msg "expected four bytes for first" []))
        = .atRecord j (10 / 10) inner ∧ 1 ≤ j ∧ j ≤ 10 / 10) := by
  obtain ⟨h1, h2, h3, h4⟩ := claimC4
  exact ⟨h1 ⟨[], 0, [], 0, none⟩ 30 (by decide),
    h2 ⟨[], 0, [], 0, none⟩ 15 (by decide),
    h3 ⟨[], 0, [], 0, none⟩ 20 _ ⟨[], 0, [], 0, none⟩ (by decide) rfl,
    h4 ⟨[], 0, [], 0, none⟩ 10 _ ⟨[], 0, [], 0, none⟩ (by decide) rfl⟩

/-- C5: the first null-terminated name of a pages block fixes the
per-record stride (name length + terminator), and a block whose declared
length is not a multiple of that stride is rejected with the stride
error; concretely, a 5-byte block whose first name `"a"` is shorter than
the second name `"bc"` fails at offset 11 with stride 2. -/
theorem claimC5 :
    (∀ (brd : Reader) (name0 rest : List Nat) (blockLength : Nat),
      brd.err = none → 0 ∉ name0 → name0.length < blockLength →
      brd.rem = name0 ++ 0 :: rest → blockLength % (name0.length + 1) ≠ 0 →
      ∃ rE, parsePagesBinary brd blockLength
        = .error (.msg "expected multiple of %d bytes for pages block but was %d"
            [((name0.length + 1 : Nat) : Int), (blockLength : Int)], rE))
    ∧ ParseBinary ([66, 77, 70, 3, 3] ++ u32le 5 ++ [97, 0, 98, 99, 0])
        = .error ⟨11, 3, 5,
            .msg "expected multiple of %d bytes for pages block but was %d" [2, 5]⟩ :=
  ⟨fun brd name0 rest bl h0 hnz hlt hrem hmod =>
      parsePagesBinary_stride_reject brd name0 rest bl h0 hnz hlt hrem hmod,
   rfl⟩

/-- C5 witness: the stride rejection at the concrete block
`"a\x00bc\x00"` of declared length 5 and inferred stride 2. -/
theorem claimC5_witness :
    ∃ rE, parsePagesBinary ⟨[97, 0, 98, 99, 0], 0, [], 0, none⟩ 5
      = .error (.msg "expected multiple of %d bytes for pages block but was %d"
          [2, 5], rE) := by
  obtain ⟨h, -⟩ := claimC5
  exact h ⟨[97, 0, 98, 99, 0], 0, [], 0, none⟩ [97] [98, 99, 0] 5 rfl (by decide)
    (by decide) rfl (by decide)

/-- C6: an input whose first three bytes are not `"BMF"` or whose fourth
byte is not 3 makes `ParseBinary` fail with an error naming the header
block (block 0) and producing no `Font`; an input passing both checks
clears header parsing with the stream positioned at byte 4. -/
theorem claimC6 (data : List Nat) :
    ((data.take 3 ≠ [66, 77, 70] ∨ data.get? 3 ≠ some 3) →
      ∃ e, ParseBinary data = .error e ∧ e.block = 0)
    ∧ (data.take 3 = [66, 77, 70] → data.get? 3 = some 3 →
      ∃ r2 : Reader, parseHeaderBinary ⟨data, 0, [], 0, none⟩ = .ok r2 ∧
        r2.rem = data.drop 4 ∧ r2.idx = 4 ∧ r2.err = none) := by
  refine ⟨ParseBinary_header_err data, fun h1 h2 => ?_⟩
  have hshape := header_shape data h1 h2
  obtain ⟨r2, e, rem, idx, err⟩ :=
    parseHeaderBinary_ok ⟨data, 0, [], 0, none⟩ (data.drop 4) rfl hshape
  exact ⟨r2, e, rem, by simpa using idx, err⟩

/-- C6 witness: `"XXX"` data fails with a header-block error, and a
`"BMF"` version-3 header parses with the stream at byte 4. -/
theorem claimC6_witness :
    (∃ e, ParseBinary [88, 88, 88, 3, 1] = .error e ∧ e.block = 0)
    ∧ (∃ r2 : Reader, parseHeaderBinary ⟨[66, 77, 70, 3, 9], 0, [], 0, none⟩ = .ok r2 ∧
        r2.rem = [9] ∧ r2.idx = 4 ∧ r2.err = none) := by
  refine ⟨(claimC6 [88, 88, 88, 3, 1]).1 (Or.inl (by decide)), ?_⟩
  obtain ⟨r2, e, rem, idx, err⟩ := (claimC6 [66, 77, 70, 3, 9]).2 (by decide) (by decide)
  exact ⟨r2, e, by simpa using rem, idx, err⟩

/-- C7 counterexample: end-of-stream mid-block is NOT always a fatal
error.  A kerning block declaring 10 body bytes but supplying only 9
parses successfully (the one-call read returns 9 bytes plus a stale zero
without error), and a chars block whose 4-byte length field is cut off
after 2 bytes parses as length 0 and succeeds. -/
theorem claimC7_counterexample :
    ParseBinary ([66, 77, 70, 3, 5] ++ u32le 10 ++ List.replicate 9 0)
      = .ok { emptyFont with kernings := [⟨0, 0, 0⟩] }
    ∧ ParseBinary [66, 77, 70, 3, 4, 0, 0] = .ok emptyFont :=
  ⟨rfl, rfl⟩

/-- C7 (amended): after a valid header the block loop reads a type byte
then a 4-byte little-endian length; a type byte outside {1,...,5} is a
fatal error, end-of-stream exactly at the type read terminates the parse
normally with the accumulated `Font`, and a stream ending immediately
after the type byte (nothing of the length field present) is a fatal
block-length error — but a partially supplied length field or block body
is not always fatal. -/
theorem claimC7 :
    (∀ (fnt : Font) (fr : Reader) (b : Nat) (rest : List Nat),
      fr.err = none → fr.rem = b :: rest → (b = 0 ∨ 5 < b) →
      ∃ e, parseBlockBinary fnt fr = .fail e
        ∧ e.err = .msg "expected block type to be one of 1,2,3,4,5 but was %d" [(b : Int)]
        ∧ e.block = 0)
    ∧ (∀ (fnt : Font) (fr : Reader) (fuel : Nat), fr.err = none → fr.rem = [] →
        parseBlocks fnt fr (fuel + 1) = .ok fnt)
    ∧ ParseBinary [66, 77, 70, 3] = .ok emptyFont
    ∧ (∀ (fnt : Font) (fr : Reader) (b : Nat), fr.err = none → fr.rem = [b] →
        1 ≤ b → b ≤ 5 →
        ∃ e, parseBlockBinary fnt fr = .fail e
          ∧ e.err = .msg "expected four bytes for block length" []) :=
  ⟨fun fnt fr b rest h0 hrem hb => parseBlock_badType fnt fr b rest h0 hrem hb,
   fun fnt fr fuel h0 hrem => parseBlocks_end fnt fr fuel h0 hrem,
   rfl,
   fun fnt fr b h0 hrem hb1 hb5 => parseBlock_lenEOF fnt fr b h0 hrem hb1 hb5⟩

/-- C7 witness: block type 9 is rejected, an empty stream ends the block
loop with the accumulated font, and a stream holding only the type
byte 1 fails on the block length. -/
theorem claimC7_witness :
    (∃ e, parseBlockBinary emptyFont ⟨[9, 1, 0, 0, 0, 0], 4, [], 0, none⟩ = .fail e
      ∧ e.err = .msg "expected block type to be one of 1,2,3,4,5 but was %d" [(9 : Int)]
      ∧ e.block = 0)
    ∧ parseBlocks emptyFont ⟨[], 4, [], 0, none⟩ 1 = .ok emptyFont
    ∧ (∃ e, parseBlockBinary emptyFont ⟨[1], 4, [], 0, none⟩ = .fail e
      ∧ e.err = .msg "expected four bytes for block length" []) := by
  obtain ⟨h1, h2, -, h4⟩ := claimC7
  exact ⟨h1 emptyFont ⟨[9, 1, 0, 0, 0, 0], 4, [], 0, none⟩ 9 [1, 0, 0, 0, 0] rfl rfl
      (by decide),
    h2 emptyFont ⟨[], 4, [], 0, none⟩ 0 rfl rfl,
    h4 emptyFont ⟨[1], 4, [], 0, none⟩ 1 rfl rfl (by decide) (by decide)⟩

/-- C8: `Parse` on fewer than 5 bytes is the insufficient-data error;
otherwise a `"BMF"` 3-byte prefix routes to the binary codec, a
`"<?xml"` 5-byte prefix routes to the XML codec, and everything else
goes to the text codec carrying the text codec's own result. -/
theorem claimC8 (data : List Nat) :
    (data.length < 5 → Parse data = .insufficientData)
    ∧ (5 ≤ data.length → data.take 3 = [66, 77, 70] → Parse data = .binaryRoute)
    ∧ (5 ≤ data.length → data.take 3 ≠ [66, 77, 70] →
        data.take 5 = [60, 63, 120, 109, 108] → Parse data = .xmlRoute)
    ∧ (5 ≤ data.length → data.take 3 ≠ [66, 77, 70] →
        data.take 5 ≠ [60, 63, 120, 109, 108] →
        Parse data = .textResult (ParseText data)) := by
  unfold Parse
  refine ⟨fun h => if_pos h, fun h5 h3 => ?_, fun h5 h3 hx => ?_, fun h5 h3 hx => ?_⟩
  · rw [if_neg (by omega), if_pos h3]
  · rw [if_neg (by omega), if_neg h3, if_pos hx]
  · rw [if_neg (by omega), if_neg h3, if_neg hx]

/-- C8 witness: the four routes at concrete inputs. -/
theorem claimC8_witness :
    Parse [1, 2, 3] = .insufficientData
    ∧ Parse [66, 77, 70, 3, 1] = .binaryRoute
    ∧ Parse [60, 63, 120, 109, 108] = .xmlRoute
    ∧ Parse [104, 101, 108, 108, 111] = .textResult (ParseText [104, 101, 108, 108, 111]) :=
  ⟨(claimC8 [1, 2, 3]).1 (by decide),
   (claimC8 [66, 77, 70, 3, 1]).2.1 (by decide) (by decide),
   (claimC8 [60, 63, 120, 109, 108]).2.2.1 (by decide) (by decide) (by decide),
   (claimC8 [104, 101, 108, 108, 111]).2.2.2 (by decide) (by decide) (by decide)⟩

/-- C9 counterexample: padding `"1,2,3,4,5"` does not yield Left=4.
`strings.SplitN(s, ",", 4)` leaves `"4,5"` as the fourth piece, whose
`Atoi` fails and stores 0, so the result is Up=1, Right=2, Down=3,
Left=0. -/
theorem claimC9_counterexample :
    parsePadding [49, 44, 50, 44, 51, 44, 52, 44, 53] = ⟨1, 2, 3, 0⟩
    ∧ (⟨1, 2, 3, 0⟩ : Padding) ≠ ⟨1, 2, 3, 4⟩ :=
  ⟨rfl, by decide⟩

/-- C9 (amended): for a comma-join of components each free of commas,
spacing takes the first two components (missing ones default to 0, the
split cap of 4 never merges them); padding takes the first four when at
most four components are present (missing ones default to 0), but with
five or more components the fourth `SplitN` piece keeps the embedded
commas, its `Atoi` fails, and Left becomes 0 — excess components are
not simply ignored. -/
theorem claimC9 (comps : List (List Nat)) (hne : comps ≠ [])
    (hfree : ∀ c ∈ comps, 44 ∉ c) :
    (parseSpacing (joinComma comps)
      = ⟨atoiZ (comps.getD 0 [48]), atoiZ (comps.getD 1 [48])⟩)
    ∧ (comps.length ≤ 4 → parsePadding (joinComma comps)
      = ⟨atoiZ (comps.getD 0 [48]), atoiZ (comps.getD 1 [48]),
         atoiZ (comps.getD 2 [48]), atoiZ (comps.getD 3 [48])⟩)
    ∧ (4 < comps.length → parsePadding (joinComma comps)
      = ⟨atoiZ (comps.getD 0 [48]), atoiZ (comps.getD 1 [48]),
         atoiZ (comps.getD 2 [48]), 0⟩) :=
  compound_attr_join comps hne hfree

/-- C9 witness: spacing `"2,1,9"` is ⟨2, 1⟩ and padding `"1,2,3,4,5"`
is ⟨1, 2, 3, 0⟩. -/
theorem claimC9_witness :
    parseSpacing [50, 44, 49, 44, 57] = ⟨2, 1⟩
    ∧ parsePadding [49, 44, 50, 44, 51, 44, 52, 44, 53] = ⟨1, 2, 3, 0⟩ := by
  have h1 := claimC9 [[50], [49], [57]] (by decide) (by decide)
  have h2 := claimC9 [[49], [50], [51], [52], [53]] (by decide) (by decide)
  exact ⟨h1.1, h2.2.2 (by decide)⟩

/-- C10: the text parser is not index-safe.  On the line
`"info face=5"` the tokenizer stores the numeric value 5 as a
string-table index while extracting no quoted strings, so the Go code's
`strs[5]` lookup in `parseInfoText` panics (modelled as `none`) instead
of returning a `Font` or a `TextParseError`. -/
theorem claimC10 :
    ParseText [105, 110, 102, 111, 32, 102, 97, 99, 101, 61, 53] = none := rfl

end GoBmf
